import Mathlib

/-!
# lazy: log classification pipeline (logparser.go, worker.go, analyzer.go)

A shallow embedding of the two message handlers (`LogParser.HandleMessage`,
`Analyzer.HandleMessage`), the tokenizers (`LogParser.parseWords`,
`Analyzer.parseLog`) and the sync operations (`getBayes`, `getRegexp`, `getLogFormat`,
`getAuditTags`), followed by the properties established about them.

Conventions of the embedding:

* Go strings are `String`; a Go `map[string]T` is an association list
  `GoMap T` (first binding of a key wins, assignment replaces in place).
* A nil Go map or pointer is `none`; operations that panic in Go (assignment to
  an entry of a nil map, nil dereference, failed type assertion, index out of
  range, integer division by zero) produce a `Fault`.
* A function with side effects returns an `Exec`: the trace of events it
  performed (mutex operations, blocking I/O, log lines) together with either
  its return value or the fault that stopped it.
* Code of other packages (regexp, encoding/json, bayesian, redigo, elastigo,
  probably, text/scanner, unicode, the syslog parsers) is taken as a parameter,
  and a call into it returns; the one exception is a method call on a nil
  classifier. A Go string is taken to be valid UTF-8, a sequence of characters.
-/

set_option autoImplicit false

namespace Lazy

/-! ## Go maps with string keys -/

/-- A Go `map[string]β`, as an association list. -/
abbrev GoMap (β : Type) := List (String × β)

/-- The lookup `v, ok := m[k]`: `none` when `k` is not a key. -/
def GoMap.get? {β : Type} : GoMap β → String → Option β
  | [], _ => none
  | (k', v) :: rest, k => if k' = k then some v else GoMap.get? rest k

/-- The assignment `m[k] = v` on an allocated map. -/
def GoMap.set {β : Type} : GoMap β → String → β → GoMap β
  | [], k, v => [(k, v)]
  | (k', v') :: rest, k, v =>
    if k' = k then (k, v) :: rest else (k', v') :: GoMap.set rest k v

/-- The read `m[k]` of a `map[string]string`: the empty string when `k` is not a key. -/
def GoMap.getStr (m : GoMap String) (k : String) : String :=
  (m.get? k).getD ""

/-! ## Panics, events and executions -/

/-- The Go run-time panics the embedded code can raise. -/
inductive Fault
  | nilMapAssign
  | nilPointer
  | typeAssertion
  | indexOutOfRange
  | divideByZero
deriving DecidableEq, Repr

/-- A value stored in a `map[string]interface{}` (a parsed log record). -/
inductive Value
  | str (s : String)
  | time (unix : Int)
  | num (n : Int)
deriving DecidableEq, Repr

/-- A parsed record / the body of an `ElasticRecord`: `map[string]interface{}`. -/
abbrev Body := GoMap Value

/-- The blocking I/O actions of the handlers and sync operations. -/
inductive Effect
  /-- `con.Do("ZADD", tag, t.Unix(), msg.Body)`, worker.go line 50. -/
  | auditStore (key : String) (score : Int) (member : String)
  /-- `con.Do("ZADD", "err:"+tag, t.Unix(), msg.Body)`, worker.go line 55. -/
  | errStore (key : String) (score : Int) (member : String)
  /-- `Publish(trainTopic, msg.Body)`. -/
  | trainPublish (topic : String) (payload : String)
  /-- `con.Do("SMEMBERS", key)` for a set of names or patterns, `con.Do("GET", key)` for the
  log format. -/
  | repoFetch (key : String)
  /-- `con.Do("SMEMBERS", key)` for the training words of one class. -/
  | wordsFetch (key : String)
  /-- `indexor.Index(index, topic, "", ttl, nil, body)`. -/
  | sinkWrite (index : String) (topic : String) (ttl : String) (body : Option Body)
deriving DecidableEq, Repr

/-- One observable step of an execution. -/
inductive Event
  | lock
  | unlock
  | log (text : String)
  | io (e : Effect)
deriving DecidableEq, Repr

/-- An execution: the events performed, then a return value or a panic. -/
structure Exec (α : Type) where
  trace : List Event
  result : Except Fault α

namespace Exec

/-- Returning without any event. -/
def ret {α : Type} (a : α) : Exec α := ⟨[], .ok a⟩

/-- Sequencing: a panic in the first part stops the execution. -/
def andThen {α β : Type} (x : Exec α) (f : α → Exec β) : Exec β :=
  match x.result with
  | .error e => ⟨x.trace, .error e⟩
  | .ok a => ⟨x.trace ++ (f a).trace, (f a).result⟩

/-- Performing one event. -/
def emit (e : Event) : Exec Unit := ⟨[e], .ok ()⟩

/-- Panicking. -/
def panic {α : Type} (f : Fault) : Exec α := ⟨[], .error f⟩

end Exec

instance : Monad Exec where
  pure := Exec.ret
  bind := Exec.andThen

/-- Whether the mutex is held after the events of a trace, given whether it was held before. -/
def heldAfter : Bool → List Event → Bool
  | h, [] => h
  | _, Event.lock :: rest => heldAfter true rest
  | _, Event.unlock :: rest => heldAfter false rest
  | h, _ :: rest => heldAfter h rest

/-- The blocking I/O actions of a trace that lie between a `lock` and its `unlock`. -/
def ioUnderLock : Bool → List Event → List Effect
  | _, [] => []
  | _, Event.lock :: rest => ioUnderLock true rest
  | _, Event.unlock :: rest => ioUnderLock false rest
  | h, Event.io e :: rest => if h then e :: ioUnderLock h rest else ioUnderLock h rest
  | h, Event.log _ :: rest => ioUnderLock h rest

/-- The records written to the sink in a trace. -/
def sinkWrites : List Event → List (Option Body)
  | [] => []
  | Event.io (Effect.sinkWrite _ _ _ b) :: rest => b :: sinkWrites rest
  | _ :: rest => sinkWrites rest

/-! ## Strings -/

/-- `strings.ToLower`: every character replaced by its image under `unicode.ToLower`, which
is the argument `lower` (the case tables belong to the unicode package). -/
def ToLower (lower : Char → Char) (s : String) : String :=
  String.mk (s.data.map lower)

/-- The pieces of `strings.Split(s, " ")` on a list of characters: the current piece is
accumulated in `cur`; a string without a space yields itself as the only piece. -/
def splitSpace : List Char → List Char → List String
  | cur, [] => [String.mk cur.reverse]
  | cur, c :: rest =>
    if c = ' ' then String.mk cur.reverse :: splitSpace [] rest
    else splitSpace (c :: cur) rest

/-- `strings.Split(s, " ")`. -/
def Split (s : String) : List String :=
  splitSpace [] s.data

/-- `strings.Replace(s, ".", "", -1)`: every dot removed. -/
def removeDots (s : String) : String :=
  String.mk (s.data.filter (fun c => c ≠ '.'))

/-- A compiled `*regexp.Regexp`, by the two methods the code calls. -/
structure Regexp where
  MatchString : String → Bool
  ReplaceAllString : String → String → String

/-- `LogParser.parseWords` (logparser.go 254-261), for the compiled `wordSplitRegexp` and
the map `lower` of `unicode.ToLower`. -/
def parseWords (lower : Char → Char) (wordSplitRegexp : Regexp) (msg : String) :
    List String :=
  let t := Split (wordSplitRegexp.ReplaceAllString msg " ")
  t.map (ToLower lower)

/-- A token is lower-case when `strings.ToLower` leaves it as it is. -/
def isLowerCase (lower : Char → Char) (t : String) : Prop :=
  ToLower lower t = t

/-- The regular expression `[,;]`: a match is one comma or one semicolon. -/
def commaSemicolon : Regexp where
  MatchString := fun s => s.data.any (fun c => c = ',' || c = ';')
  ReplaceAllString := fun src repl =>
    String.join (src.data.map (fun c => if c = ',' || c = ';' then repl else String.mk [c]))

/-! ## Collaborators -/

/-- An `*nsq.Message`: the payload. -/
structure Message where
  Body : String

/-- The bayesian package: a classifier of type `κ` is built from its class names, taught the
words of a class, and scores a document (the most likely class index and the strict flag;
the score vector is not used by the callers). -/
structure Bayes (κ : Type) where
  NewClassifier : List String → κ
  Learn : κ → List String → String → κ
  LogScores : κ → List String → Nat × Bool

/-- Modelled from the spec: the type declaration of `LogSetting` is not among the source
files. The fields are those the code reads, with the roles the spec gives them in its
ClassificationProfile (parser, split pattern, additional checks, retention, index name,
dialect). -/
structure LogSetting where
  SplitRegexp : String
  IndexTTL : String
  LogType : String
  AddtionCheck : List String
  ElasticSearchIndex : String
  Parser : String → Except String Body

/-- The services reached over the network and the decoders of other packages. -/
structure Services where
  /-- `json.Unmarshal(msg.Body, &body)` into a `map[string]string`. -/
  jsonUnmarshal : String → Except String (GoMap String)
  /-- `rfc3164.NewParser(b).Parse()` followed by `Dump()`. -/
  rfc3164 : String → Except String Body
  /-- `redis.Strings(con.Do("SMEMBERS", key))`. -/
  redisStrings : String → Except String (List String)
  /-- The error of `indexor.Index(index, topic, "", ttl, nil, body)`, `none` for nil. -/
  Index : String → String → String → Option Body → Option String
  /-- The date suffix held by the index builder. -/
  indexPatten : String
  /-- `regexp.CompilePOSIX(v)`. -/
  CompilePOSIX : String → Except String Regexp
  /-- `con.Do("GET", key)`: the stored bytes, `none` for the nil reply of a missing key. -/
  redisGet : String → Except String (Option String)
  /-- `json.Unmarshal(bytes, &logSetting)`. -/
  decodeLogSetting : String → Except String LogSetting
  /-- `unicode.ToLower(r)`. -/
  unicodeToLower : Char → Char

/-! ## logparser.go -/

/-- Modelled from the spec: the type declaration of `ElasticRecord` is not among the source
files; it is the spec's EnrichedRecord on its way to the sink. The fields are those the code
uses. The code indexes `body` by strings and assigns the parsed record to it, so it is a map,
and the literal at logparser.go 81-84 leaves it at its zero value, the nil map. The error
channel is the value `HandleMessage` receives back from the index builder. -/
structure ElasticRecord where
  body : Option Body
  ttl : String

/-- The fields of `LogParser` read or written by the embedded methods (`TrainTopic` is a
field of the embedded `Setting`). The pointer
`logSetting` is not nil when a handler runs: `Run` dereferences it before it registers the
handlers, and `getLogFormat` only ever replaces it. -/
structure LogParser (κ : Type) where
  classifiers : List String
  logTopic : String
  TrainTopic : String
  logSetting : LogSetting
  c : Option κ
  wordSplitRegexp : Regexp
  regexMap : GoMap (List Regexp)

/-- The type assertion `v.(string)` on a map read. -/
def asString : Option Value → Exec String
  | some (Value.str s) => pure s
  | _ => Exec.panic Fault.typeAssertion

/-- The assignment `record.body[k] = v`: a panic on the nil map. -/
def assign (b : Option Body) (k : String) (v : Value) : Exec (Option Body) :=
  match b with
  | none => Exec.panic Fault.nilMapAssign
  | some m => pure (some (m.set k v))

/-- The loop over the rules of a tag, logparser.go 106-110. -/
def matchRules (message : Body) : List Regexp → Option Body → Exec (Option Body)
  | [], b => pure b
  | r :: rest, b => do
    let content ← asString (message.get? "content")
    let b ←
      if r.MatchString content then assign b "regexp_check" (Value.str "passed") else pure b
    matchRules message rest b

/-- The `"regexp"` case, logparser.go 102-111, on the record body `b`. -/
def regexpCheck {κ : Type} (m : LogParser κ) (message : Body) (tag : String)
    (b : Option Body) : Exec (Option Body) :=
  match m.regexMap.get? tag with
  | none => pure b
  | some rg => do
    let b ← assign b "regexp_check" (Value.str "failed")
    matchRules message rg b

/-- The call `m.c.LogScores(words)`: a nil dereference when no classifier is set. -/
def logScores {κ : Type} (bl : Bayes κ) (c : Option κ) (words : List String) :
    Exec (Nat × Bool) :=
  match c with
  | none => Exec.panic Fault.nilPointer
  | some k => pure (bl.LogScores k words)

/-- The index expression `m.classifiers[likely]`. -/
def classAt (classifiers : List String) (likely : Nat) : Exec String :=
  match classifiers.get? likely with
  | none => Exec.panic Fault.indexOutOfRange
  | some cls => pure cls

/-- The `"bayes"` case, logparser.go 112-120, on the record body `b`. -/
def bayesCheck {κ : Type} (sv : Services) (bl : Bayes κ) (m : LogParser κ) (msg : Message)
    (message : Body) (b : Option Body) : Exec (Option Body) := do
  let content ← asString (message.get? "content")
  let words := parseWords sv.unicodeToLower m.wordSplitRegexp content
  let (likely, strict) ← logScores bl m.c words
  let b ← assign b "bayes_check" (Value.str "chaos")
  if strict then do
    let cls ← classAt m.classifiers likely
    assign b "bayes_check" (Value.str cls)
  else do
    Exec.emit (Event.io (Effect.trainPublish m.TrainTopic msg.Body))
    pure b

/-- The loop over `AddtionCheck`, logparser.go 100-124. -/
def runChecks {κ : Type} (sv : Services) (bl : Bayes κ) (m : LogParser κ) (msg : Message)
    (message : Body) (tag : String) : List String → Option Body → Exec (Option Body)
  | [], b => pure b
  | check :: rest, b => do
    let b ←
      if check = "regexp" then regexpCheck m message tag b
      else if check = "bayes" then bayesCheck sv bl m msg message b
      else do
        Exec.emit (Event.log ("unsupportted check way " ++ check))
        pure b
    runChecks sv bl m msg message tag rest b

/-- The rfc3164 block, logparser.go 92-125: the parsed record (with the defaulted tag) and the
record body after the checks. -/
def enrich {κ : Type} (sv : Services) (bl : Bayes κ) (m : LogParser κ) (msg : Message)
    (message : Body) (b : Option Body) : Exec (Body × Option Body) :=
  if m.logSetting.LogType = "rfc3164" then do
    let tag ← asString (message.get? "tag")
    let (message, tag) :=
      if tag.length = 0 then (message.set "tag" (Value.str "misc"), "misc")
      else (message, removeDots tag)
    let b ← runChecks sv bl m msg message tag m.logSetting.AddtionCheck b
    pure (message, b)
  else pure (message, b)

/-- One round of `LogParser.elasticSearchBuildIndex` for a received record, logparser.go
241-246: the error it sends back on the record's channel. -/
def LogParser.elasticSearchBuildIndex {κ : Type} (sv : Services) (m : LogParser κ)
    (r : ElasticRecord) : Exec (Option String) := do
  Exec.emit Event.lock
  let searchIndex := m.logSetting.ElasticSearchIndex
  Exec.emit Event.unlock
  Exec.emit
    (Event.io (Effect.sinkWrite (searchIndex ++ sv.indexPatten) m.logTopic r.ttl r.body))
  pure (sv.Index (searchIndex ++ sv.indexPatten) m.logTopic r.ttl r.body)

/-- The handler `LogParser.HandleMessage`, logparser.go 75-130, up to the hand-off; the send
on `msgChannel` and the receive on the record's channel are the round of the index builder
for this record. The result is the returned error, `none` for nil. -/
def LogParser.HandleMessage {κ : Type} (sv : Services) (bl : Bayes κ) (m : LogParser κ)
    (msg : Message) : Exec (Option String) :=
  match sv.jsonUnmarshal msg.Body with
  | Except.error _ => pure none
  | Except.ok body => do
    let record : ElasticRecord := { body := none, ttl := m.logSetting.IndexTTL }
    Exec.emit Event.lock
    match m.logSetting.Parser (body.getStr "rawmsg") with
    | Except.error err => do
      Exec.emit (Event.log err)
      pure none
    | Except.ok message => do
      let message := message.set "from" (Value.str (body.getStr "from"))
      let (message, _) ← enrich sv bl m msg message record.body
      Exec.emit Event.unlock
      let record := { record with body := some message }
      LogParser.elasticSearchBuildIndex sv m record

/-- The words of the classes, logparser.go 168-175: the classifier when the loop ends, and
whether it ended on a failed fetch. -/
def learnLoop {κ : Type} (sv : Services) (bl : Bayes κ) (logTopic : String) :
    List String → κ → Exec (κ × Bool)
  | [], k => pure (k, false)
  | c :: rest, k => do
    Exec.emit (Event.io (Effect.wordsFetch ("classifier:" ++ logTopic ++ ":" ++ c)))
    match sv.redisStrings ("classifier:" ++ logTopic ++ ":" ++ c) with
    | Except.error _ => do
      Exec.emit (Event.log ("fail to get words " ++ c))
      pure (k, true)
    | Except.ok words => learnLoop sv bl logTopic rest (bl.Learn k words c)

/-- The sync operation `LogParser.getBayes`, logparser.go 148-176: the state after the call.
The classifier is taught in place, so the one held after the loop is the one the loop
returns; the deferred unlock runs on every return that follows the lock. -/
def LogParser.getBayes {κ : Type} (sv : Services) (bl : Bayes κ) (m : LogParser κ) :
    Exec (LogParser κ) := do
  Exec.emit (Event.io (Effect.repoFetch ("classifiers:" ++ m.logTopic)))
  match sv.redisStrings ("classifiers:" ++ m.logTopic) with
  | Except.error _ => do
    Exec.emit (Event.log "fail to get classifiers")
    pure m
  | Except.ok classifiers =>
    if classifiers.length < 2 then do
      Exec.emit (Event.log "classifiers is less than 2")
      pure m
    else do
      Exec.emit Event.lock
      let m := { m with classifiers := classifiers, c := some (bl.NewClassifier classifiers) }
      let (k, _) ← learnLoop sv bl m.logTopic classifiers (bl.NewClassifier classifiers)
      Exec.emit Event.unlock
      pure { m with c := some k }

/-- The loop over the patterns of a tag, logparser.go 188-195: a pattern that does not
compile is logged and skipped. -/
def compileRules (sv : Services) : List String → List Regexp → Exec (List Regexp)
  | [], rg => pure rg
  | v :: rest, rg =>
    match sv.CompilePOSIX v with
    | Except.error e => do
      Exec.emit (Event.log e)
      compileRules sv rest rg
    | Except.ok x => compileRules sv rest (rg ++ [x])

/-- The loop over the tags, logparser.go 185-199 and worker.go 140-154: the patterns of a tag
are fetched under the key `keyHead ++ value` (a failed fetch leaves none), compiled, and
stored under the lock. -/
def storeRules (sv : Services) (keyHead : String) :
    List String → GoMap (List Regexp) → Exec (GoMap (List Regexp))
  | [], regexMap => pure regexMap
  | value :: rest, regexMap => do
    Exec.emit (Event.io (Effect.repoFetch (keyHead ++ value)))
    let r := match sv.redisStrings (keyHead ++ value) with
      | Except.error _ => []
      | Except.ok r => r
    let rg ← compileRules sv r []
    Exec.emit Event.lock
    let regexMap := regexMap.set value rg
    Exec.emit Event.unlock
    storeRules sv keyHead rest regexMap

/-- The sync operation `LogParser.getRegexp`, logparser.go 178-200: the state after the
call. -/
def LogParser.getRegexp {κ : Type} (sv : Services) (m : LogParser κ) : Exec (LogParser κ) := do
  Exec.emit (Event.io (Effect.repoFetch ("logtags" ++ m.logTopic)))
  match sv.redisStrings ("logtags" ++ m.logTopic) with
  | Except.error _ => pure m
  | Except.ok t => do
    let regexMap ← storeRules sv ("logtag:" ++ m.logTopic ++ ":") t m.regexMap
    pure { m with regexMap := regexMap }

/-- The sync operation `LogParser.getLogFormat`, logparser.go 132-146: the state after the
call. The assertion `body.([]byte)` panics on the nil reply of a missing key; the deferred
unlock runs before the panic leaves the function. -/
def LogParser.getLogFormat {κ : Type} (sv : Services) (m : LogParser κ) :
    Exec (LogParser κ) := do
  Exec.emit (Event.io (Effect.repoFetch ("logsetting:" ++ m.logTopic)))
  match sv.redisGet ("logsetting:" ++ m.logTopic) with
  | Except.error _ => pure m
  | Except.ok reply => do
    Exec.emit Event.lock
    match reply with
    | none => do
      Exec.emit Event.unlock
      Exec.panic Fault.typeAssertion
    | some bytes =>
      match sv.decodeLogSetting bytes with
      | Except.ok logSetting => do
        Exec.emit Event.unlock
        pure { m with logSetting := logSetting }
      | Except.error _ => do
        Exec.emit Event.unlock
        pure m

/-- Whether the fetch of the training words fails for a class reached by the loop of
`getBayes`. -/
def wordsFetchFails (sv : Services) (logTopic : String) : List String → Bool
  | [] => false
  | c :: rest =>
    match sv.redisStrings ("classifier:" ++ logTopic ++ ":" ++ c) with
    | Except.error _ => true
    | Except.ok _ => wordsFetchFails sv logTopic rest

/-! ## worker.go -/

/-- The token classes of `text/scanner` (all but end of input). -/
inductive Tok
  | Ident
  | Int
  | Float
  | Char
  | String
  | RawString
  | Comment
  | Other
deriving DecidableEq, Repr

/-- The frequency estimator (`probably.Sketch`) with state `σ`: `ConservativeIncrement`
returns the updated estimator and the estimated count of the key. -/
structure Sketch (σ : Type) where
  ConservativeIncrement : σ → String → σ × Nat

/-- The fields of `Analyzer` read or written by the embedded methods. The counter `count`
is the number of increments since zero; the Go `int` wraps at a multiple of `2 ^ 32`, so the
conversion `uint32(m.count)` is `count % 2 ^ 32` in either case. -/
structure Analyzer (κ σ : Type) where
  c : Option κ
  count : Nat
  sketch : σ
  trainTopic : String
  regexMap : GoMap (List Regexp)
  auditTags : GoMap String

/-- The conversion `uint32(m.count)`. -/
def uint32 (n : Nat) : Nat := n % 2 ^ 32

/-- The loop of `Analyzer.parseLog`, worker.go 79-91, over the tokens the scanner yields:
the estimator and the token list when the loop ends. -/
def scanLoop {σ : Type} (sv : Services) (sk : Sketch σ) (count : Nat) :
    List (Tok × String) → σ → List String → Exec (σ × List String)
  | [], s, tokens => pure (s, tokens)
  | (tok, text) :: rest, s, tokens =>
    if tok = Tok.Ident ∨ tok = Tok.String ∨ tok = Tok.RawString then
      let v := ToLower sv.unicodeToLower text
      let (s, f) := sk.ConservativeIncrement s v
      if f = 0 then Exec.panic Fault.divideByZero
      else
        let p := uint32 count / f
        if p < 100 then do
          Exec.emit (Event.log ("ignore " ++ v))
          scanLoop sv sk count rest s tokens
        else do
          Exec.emit (Event.log ("not ignore " ++ v))
          scanLoop sv sk count rest s (tokens ++ [v])
    else scanLoop sv sk count rest s tokens

/-- The tokenizer `Analyzer.parseLog`, worker.go 72-93; `scan` is the token stream of
`text/scanner` on the message. -/
def Analyzer.parseLog {κ σ : Type} (sv : Services) (sk : Sketch σ)
    (scan : String → List (Tok × String)) (m : Analyzer κ σ) (msg : String) :
    Exec (Analyzer κ σ × List String) := do
  let m := { m with count := m.count + 1 }
  let (s, tokens) ← scanLoop sv sk m.count (scan msg) m.sketch []
  pure ({ m with sketch := s }, tokens)

/-- The tail of `Analyzer.HandleMessage`, worker.go 61-69: the rules of the tag against the
content. -/
def reportUnmatched (rg : Option (List Regexp)) (content : String) (payload : String) :
    Exec Unit :=
  match rg with
  | some rules =>
    if rules.any (fun r => r.MatchString content) then pure ()
    else Exec.emit (Event.log payload)
  | none => Exec.emit (Event.log payload)

/-- The audit copy, worker.go 49-51, made while the lock is held. -/
def auditCopy (auditTags : GoMap String) (tag : String) (t : Int) (payload : String) :
    Exec Unit :=
  if (auditTags.get? tag).isSome then
    Exec.emit (Event.io (Effect.auditStore tag t payload))
  else pure ()

/-- The error copy, worker.go 53-56. -/
def storeError (tag : String) (t : Int) (payload : String) (likely : Nat) (strict : Bool) :
    Exec Unit :=
  if strict ∧ likely > 0 then do
    Exec.emit (Event.log "likely")
    Exec.emit (Event.io (Effect.errStore ("err:" ++ tag) t payload))
  else pure ()

/-- The retraining request, worker.go 57-60. -/
def requestTraining (trainTopic : String) (payload : String) (strict : Bool) : Exec Unit :=
  if ¬ strict then do
    Exec.emit (Event.io (Effect.trainPublish trainTopic payload))
    Exec.emit (Event.log "failed bayes")
  else pure ()

/-- The handler `Analyzer.HandleMessage`, worker.go 32-70: the analyzer after the call and the
returned error (always nil). -/
def Analyzer.HandleMessage {κ σ : Type} (sv : Services) (bl : Bayes κ) (sk : Sketch σ)
    (scan : String → List (Tok × String)) (m : Analyzer κ σ) (msg : Message) :
    Exec (Analyzer κ σ × Option String) :=
  match sv.rfc3164 msg.Body with
  | Except.error _ => pure (m, none)
  | Except.ok message => do
    let content ← asString (message.get? "content")
    let (m, words) ← Analyzer.parseLog sv sk scan m content
    match message.get? "timestamp" with
    | some (Value.time t) => do
      Exec.emit Event.lock
      let (likely, strict) ← logScores bl m.c words
      let tag ← asString (message.get? "tag")
      let rg := m.regexMap.get? tag
      auditCopy m.auditTags tag t msg.Body
      Exec.emit Event.unlock
      storeError tag t msg.Body likely strict
      requestTraining m.trainTopic msg.Body strict
      reportUnmatched rg content msg.Body
      pure (m, none)
    | _ => do
      Exec.emit (Event.log "time error")
      pure (m, none)

/-- The sync operation `Analyzer.getBayes`, worker.go 119-131: the analyzer after the call.
A failed fetch leaves an empty word list. -/
def Analyzer.getBayes {κ σ : Type} (sv : Services) (bl : Bayes κ) (m : Analyzer κ σ) :
    Exec (Analyzer κ σ) := do
  Exec.emit (Event.io (Effect.wordsFetch "NormalLog"))
  let n := match sv.redisStrings "NormalLog" with
    | Except.error _ => []
    | Except.ok n => n
  Exec.emit (Event.io (Effect.wordsFetch "ErrorLog"))
  let e := match sv.redisStrings "ErrorLog" with
    | Except.error _ => []
    | Except.ok e => e
  Exec.emit Event.lock
  let k := bl.NewClassifier ["NormalLog", "ErrorLog"]
  let k := bl.Learn k n "NormalLog"
  let k := bl.Learn k e "ErrorLog"
  Exec.emit Event.unlock
  pure { m with c := some k }

/-- The sync operation `Analyzer.getRegexp`, worker.go 133-155: the analyzer after the call. -/
def Analyzer.getRegexp {κ σ : Type} (sv : Services) (m : Analyzer κ σ) :
    Exec (Analyzer κ σ) := do
  Exec.emit (Event.io (Effect.repoFetch "logtags"))
  match sv.redisStrings "logtags" with
  | Except.error _ => pure m
  | Except.ok t => do
    let regexMap ← storeRules sv "tag:" t m.regexMap
    pure { m with regexMap := regexMap }

/-- The loop of `Analyzer.getAuditTags`, worker.go 166-168. -/
def addAuditTags : List String → GoMap String → GoMap String
  | [], tags => tags
  | value :: rest, tags => addAuditTags rest (tags.set value value)

/-- The sync operation `Analyzer.getAuditTags`, worker.go 157-169: the analyzer after the
call. -/
def Analyzer.getAuditTags {κ σ : Type} (sv : Services) (m : Analyzer κ σ) :
    Exec (Analyzer κ σ) := do
  Exec.emit (Event.io (Effect.repoFetch "auditlogtags"))
  match sv.redisStrings "auditlogtags" with
  | Except.error _ => pure m
  | Except.ok t => do
    Exec.emit Event.lock
    let m := { m with auditTags := addAuditTags t m.auditTags }
    Exec.emit Event.unlock
    pure m

/-- The keys of a map. -/
def GoMap.keys {β : Type} (m : GoMap β) : List String :=
  m.map Prod.fst

/-! ## Example inputs -/

/-- The map `unicode.ToLower` on the characters below U+0100 (ASCII and Latin-1): the
capitals `A`-`Z`, `À`-`Ö` and `Ø`-`Þ` move up by 32, every other character stays. The
examples use no character from U+0100 on. -/
def latin1ToLower (c : Char) : Char :=
  let n := c.toNat
  if (65 ≤ n ∧ n ≤ 90) ∨ (192 ≤ n ∧ n ≤ 222 ∧ n ≠ 215) then Char.ofNat (n + 32)
  else c

/-- A classifier library that records the classes and the words taught to each, and
answers with the first class that was taught a word of the document (strict), or with class
0 (not strict) when there is none. -/
def recBayes : Bayes (List (String × List String)) where
  NewClassifier := fun classes => classes.map (fun c => (c, []))
  Learn := fun k words c => k.map (fun p => if p.1 = c then (p.1, p.2 ++ words) else p)
  LogScores := fun k words =>
    match k.findIdx? (fun p => words.any (fun w => p.2.contains w)) with
    | some i => (i, true)
    | none => (0, false)

/-- The regular expression `^ERR.*`. -/
def startsWithERR : Regexp where
  MatchString := fun s => "ERR".data.isPrefixOf s.data
  ReplaceAllString := fun src repl => if "ERR".data.isPrefixOf src.data then repl else src

/-- A raw rfc3164 line. -/
def rawSu : String := "<34>Oct 11 22:14:15 mymachine su: ERR disk full"

/-- The queue payload carrying `rawSu`. -/
def payloadSu : String :=
  "\x7b\"rawmsg\":\"<34>Oct 11 22:14:15 mymachine su: ERR disk full\",\"from\":\"host1\"\x7d"

/-- A queue payload whose raw message is not a syslog line. -/
def payloadGarbage : String := "\x7b\"rawmsg\":\"garbage\",\"from\":\"host1\"\x7d"

/-- The record parsed from `rawSu`. -/
def parsedSu : Body :=
  [("timestamp", Value.time 1697062455), ("hostname", Value.str "mymachine"),
   ("tag", Value.str "su"), ("content", Value.str "ERR disk full"),
   ("priority", Value.num 34), ("facility", Value.num 4), ("severity", Value.num 2)]

/-- A repository and decoders: the topic `syslog` has the classes `NormalLog` and `ErrorLog`
but their word sets cannot be fetched; the topic `app` has the single class `NormalLog`; the
tag `su` of `syslog` has the one pattern `(`, which does not compile; the audit tags are
`cron`; no log format is stored; the case map is that of ASCII and Latin-1. The sink accepts
every record. -/
def demoServices : Services where
  jsonUnmarshal := fun s =>
    if s = payloadSu then Except.ok [("rawmsg", rawSu), ("from", "host1")]
    else if s = payloadGarbage then Except.ok [("rawmsg", "garbage"), ("from", "host1")]
    else Except.error "invalid character"
  rfc3164 := fun s => if s = rawSu then Except.ok parsedSu else Except.error "parse error"
  redisStrings := fun k =>
    if k = "classifiers:syslog" then Except.ok ["NormalLog", "ErrorLog"]
    else if k = "classifiers:app" then Except.ok ["NormalLog"]
    else if k = "logtagssyslog" then Except.ok ["su"]
    else if k = "logtag:syslog:su" then Except.ok ["("]
    else if k = "auditlogtags" then Except.ok ["cron"]
    else Except.error "connection refused"
  Index := fun _ _ _ _ => none
  indexPatten := "-2023.10.11"
  CompilePOSIX := fun v =>
    if v = "^ERR.*" then Except.ok startsWithERR else Except.error "missing closing )"
  redisGet := fun _ => Except.ok none
  decodeLogSetting := fun _ => Except.error "unexpected end of JSON input"
  unicodeToLower := latin1ToLower

/-- An rfc3164 profile with the given additional checks. -/
def demoSetting (checks : List String) : LogSetting where
  SplitRegexp := "[,;]"
  IndexTTL := "30d"
  LogType := "rfc3164"
  AddtionCheck := checks
  ElasticSearchIndex := "logs"
  Parser := fun s => if s = rawSu then Except.ok parsedSu else Except.error "parse error"

/-- A log parser of the given topic before any sync: no classifier, no class names, no
rules. -/
def demoParser (topic : String) (checks : List String) :
    LogParser (List (String × List String)) where
  classifiers := []
  logTopic := topic
  TrainTopic := "train"
  logSetting := demoSetting checks
  c := none
  wordSplitRegexp := commaSemicolon
  regexMap := []

/-- A log parser of topic `syslog` after a sync: both classes taught, and the rule `^ERR.*`
for the tag `su`. -/
def trainedParser (checks : List String) : LogParser (List (String × List String)) where
  classifiers := ["NormalLog", "ErrorLog"]
  logTopic := "syslog"
  TrainTopic := "train"
  logSetting := demoSetting checks
  c := some [("NormalLog", ["ok"]), ("ErrorLog", ["err"])]
  wordSplitRegexp := commaSemicolon
  regexMap := [("su", [startsWithERR])]

/-- The log parser of topic `syslog`, check "regexp", after `getRegexp` ran against
`demoServices`: the tag `su` is stored with an empty rule list. -/
def syncedParser : LogParser (List (String × List String)) :=
  { demoParser "syslog" ["regexp"] with regexMap := [("su", [])] }

/-- A frequency estimator that counts nothing and always answers 1. -/
def unitSketch : Sketch Unit where
  ConservativeIncrement := fun s _ => (s, 1)

/-- A token stream: the message as one identifier. -/
def oneIdent (msg : String) : List (Tok × String) := [(Tok.Ident, msg)]

/-- An analyzer after bootstrap with the given counter and audit tags. -/
def demoAnalyzer (count : Nat) (auditTags : GoMap String) :
    Analyzer (List (String × List String)) Unit where
  c := some (recBayes.NewClassifier ["NormalLog", "ErrorLog"])
  count := count
  sketch := ()
  trainTopic := "train"
  regexMap := []
  auditTags := auditTags

/-! ## Classes of events -/

/-- An event that is neither a mutex operation nor an I/O action outside `p`. -/
def quiet (p : Effect → Bool) : Event → Bool
  | Event.lock => false
  | Event.unlock => false
  | Event.log _ => true
  | Event.io e => p e

/-- An execution all of whose events are quiet. -/
def Exec.Quiet {α : Type} (p : Effect → Bool) (x : Exec α) : Prop :=
  ∀ e ∈ x.trace, quiet p e = true

/-- The retraining publishes. -/
def Effect.isTrainPublish : Effect → Bool
  | Effect.trainPublish _ _ => true
  | _ => false

/-- The audit-store writes. -/
def Effect.isAuditStore : Effect → Bool
  | Effect.auditStore _ _ _ => true
  | _ => false

/-- The fetches of the training words of a class. -/
def Effect.isWordsFetch : Effect → Bool
  | Effect.wordsFetch _ => true
  | _ => false

/-- No I/O action at all. -/
def Effect.isNone : Effect → Bool := fun _ => false

/-- The lock discipline of an execution started with the mutex in state `h`: every I/O
action performed while the mutex is held satisfies `p`, and when the execution returns the
mutex is in state `h2`. -/
def Exec.Locks {α : Type} (p : Effect → Bool) (h h2 : Bool) (x : Exec α) : Prop :=
  (∀ e ∈ ioUnderLock h x.trace, p e = true) ∧
  (∀ a, x.result = Except.ok a → heldAfter h x.trace = h2)

/-- Successive calls of `Analyzer.parseLog`, one per message: the analyzer after the last
call and the token list of each call. -/
def parseLogs {κ σ : Type} (sv : Services) (sk : Sketch σ)
    (scan : String → List (Tok × String)) :
    Analyzer κ σ → List String → Exec (Analyzer κ σ × List (List String))
  | m, [] => pure (m, [])
  | m, msg :: rest => do
    let (m, tokens) ← Analyzer.parseLog sv sk scan m msg
    let (m, out) ← parseLogs sv sk scan m rest
    pure (m, tokens :: out)

/-! ## The keep rule in the words of the specification -/

/-- The lexical tokens a message is observed with: each token of class identifier, string or
raw string, lower-cased, with the frequency the estimator answers when it is observed, in the
order of the scan (the estimator is updated by every observation). -/
def specObserved {σ : Type} (sv : Services) (sk : Sketch σ) :
    σ → List (Tok × String) → List (String × Nat)
  | _, [] => []
  | s, (tok, text) :: rest =>
    if tok = Tok.Ident ∨ tok = Tok.String ∨ tok = Tok.RawString then
      (ToLower sv.unicodeToLower text,
        (sk.ConservativeIncrement s (ToLower sv.unicodeToLower text)).2) ::
        specObserved sv sk (sk.ConservativeIncrement s (ToLower sv.unicodeToLower text)).1 rest
    else specObserved sv sk s rest

/-- The estimator after the tokens of a message have been observed. -/
def sketchAfter {σ : Type} (sv : Services) (sk : Sketch σ) : σ → List (Tok × String) → σ
  | s, [] => s
  | s, (tok, text) :: rest =>
    if tok = Tok.Ident ∨ tok = Tok.String ∨ tok = Tok.RawString then
      sketchAfter sv sk (sk.ConservativeIncrement s (ToLower sv.unicodeToLower text)).1 rest
    else sketchAfter sv sk s rest

/-- The keep rule: of the observed tokens, those whose quotient of the message count modulo
`2 ^ 32` (the count as `uint32`) by the frequency is at least 100. -/
def specKeptTokens (messageCount : Nat) (obs : List (String × Nat)) : List String :=
  (obs.filter (fun p => decide (100 ≤ uint32 messageCount / p.2))).map Prod.fst

/-! ## Lemmas on maps, traces and strings -/

theorem GoMap.get?_set {β : Type} (m : GoMap β) (k k' : String) (v : β) :
    (m.set k v).get? k' = if k = k' then some v else m.get? k' := by
  induction m with
  | nil => simp [GoMap.set, GoMap.get?]
  | cons p rest ih =>
    obtain ⟨a, b⟩ := p
    by_cases h : a = k
    · subst h
      by_cases h3 : a = k' <;> simp [GoMap.set, GoMap.get?, h3]
    · simp only [GoMap.set, h, if_false, GoMap.get?]
      by_cases h2 : a = k'
      · subst h2
        simp [Ne.symm h]
      · simp [h2, ih]

theorem ToLower_idem (lower : Char → Char) (hidem : ∀ c, lower (lower c) = lower c)
    (s : String) : ToLower lower (ToLower lower s) = ToLower lower s := by
  simp only [ToLower, List.map_map]
  congr 1
  apply List.map_congr_left
  intro c _
  exact hidem c

theorem ToLower_length (lower : Char → Char) (s : String) :
    (ToLower lower s).length = s.length := by
  show (s.data.map lower).length = s.data.length
  exact List.length_map _ _

theorem latin1ToLower_fixes_shifted (n : Nat)
    (h : (65 ≤ n ∧ n ≤ 90) ∨ (192 ≤ n ∧ n ≤ 222 ∧ n ≠ 215)) :
    latin1ToLower (Char.ofNat (n + 32)) = Char.ofNat (n + 32) := by
  rcases h with ⟨h1, h2⟩ | ⟨h1, h2, h3⟩
  · interval_cases n <;> decide
  · interval_cases n <;> decide

theorem latin1ToLower_idem (c : Char) :
    latin1ToLower (latin1ToLower c) = latin1ToLower c := by
  by_cases h : (65 ≤ c.toNat ∧ c.toNat ≤ 90) ∨
      (192 ≤ c.toNat ∧ c.toNat ≤ 222 ∧ c.toNat ≠ 215)
  · have hc : latin1ToLower c = Char.ofNat (c.toNat + 32) := by
      simp only [latin1ToLower, h, if_true]
    rw [hc]
    exact latin1ToLower_fixes_shifted c.toNat h
  · have hc : latin1ToLower c = c := by
      simp only [latin1ToLower, h, if_false]
    rw [hc, hc]

theorem splitSpace_length (cur rest : List Char) :
    (splitSpace cur rest).length = rest.count ' ' + 1 := by
  induction rest generalizing cur with
  | nil => simp [splitSpace]
  | cons c tl ih =>
    by_cases h : c = ' '
    · subst h
      simp [splitSpace, ih]
    · have h2 : ¬ (c == ' ') = true := by simpa using h
      simp [splitSpace, h, ih, List.count_cons, h2]

/-! ## The tokenizer of the log parser -/

/-- C7, the claim as stated fails: on the empty message, with the boundary pattern `[,;]`,
`parseWords` returns one token and that token is empty. -/
theorem parseWords_empty_token :
    parseWords latin1ToLower commaSemicolon "" = [""] ∧
    "" ∈ parseWords latin1ToLower commaSemicolon "" := by
  decide

/-- C7, amended: for every message and boundary pattern, given that `unicode.ToLower` maps
its own images to themselves, every token of `parseWords` is lower-case (`strings.ToLower`
leaves it as it is), and no piece of the split is dropped or shortened: the list has one
token more than the replaced string has spaces, and each token has as many characters as
its piece, so empty pieces stay as empty tokens. -/
theorem parseWords_lower_and_length (lower : Char → Char)
    (hidem : ∀ c, lower (lower c) = lower c) (re : Regexp) (msg : String) :
    (∀ t ∈ parseWords lower re msg, isLowerCase lower t) ∧
    (parseWords lower re msg).length = (re.ReplaceAllString msg " ").data.count ' ' + 1 ∧
    (parseWords lower re msg).map String.length
      = (Split (re.ReplaceAllString msg " ")).map String.length := by
  refine ⟨?_, ?_, ?_⟩
  · intro t ht
    simp only [parseWords, List.mem_map] at ht
    obtain ⟨p, _, rfl⟩ := ht
    exact ToLower_idem lower hidem p
  · simp [parseWords, Split, splitSpace_length]
  · simp only [parseWords, List.map_map]
    apply List.map_congr_left
    intro p _
    exact ToLower_length lower p

/-- C7, amended, at a concrete input: the case map of ASCII and Latin-1, the boundary pattern
`[,;]` and a message with accented capitals and an empty piece. -/
theorem parseWords_lower_and_length_witness :
    (∀ c, latin1ToLower (latin1ToLower c) = latin1ToLower c) ∧
    parseWords latin1ToLower commaSemicolon "ÉCOLE;,Ünï Å" = ["école", "", "ünï", "å"] ∧
    ((∀ t ∈ parseWords latin1ToLower commaSemicolon "ÉCOLE;,Ünï Å",
        isLowerCase latin1ToLower t) ∧
      (parseWords latin1ToLower commaSemicolon "ÉCOLE;,Ünï Å").length
        = (commaSemicolon.ReplaceAllString "ÉCOLE;,Ünï Å" " ").data.count ' ' + 1 ∧
      (parseWords latin1ToLower commaSemicolon "ÉCOLE;,Ünï Å").map String.length
        = (Split (commaSemicolon.ReplaceAllString "ÉCOLE;,Ünï Å" " ")).map String.length) :=
  ⟨latin1ToLower_idem, by decide,
    parseWords_lower_and_length latin1ToLower latin1ToLower_idem commaSemicolon
      "ÉCOLE;,Ünï Å"⟩

/-! ## The handler of the log parser -/

/-- C1, the code at a classifier that is not ready: under an rfc3164 profile whose first
additional check is "bayes", a message that decodes and parses is not passed over by the
bayes check: the handler dereferences the unset classifier and panics while it holds the
lock, before anything reaches the sink. -/
theorem HandleMessage_bayes_not_ready_panics {κ : Type} (sv : Services) (bl : Bayes κ)
    (m : LogParser κ) (msg : Message) (body : GoMap String) (message : Body)
    (tag content : String) (rest : List String)
    (hjson : sv.jsonUnmarshal msg.Body = Except.ok body)
    (hparse : m.logSetting.Parser (body.getStr "rawmsg") = Except.ok message)
    (htag : message.get? "tag" = some (Value.str tag))
    (hcontent : message.get? "content" = some (Value.str content))
    (htype : m.logSetting.LogType = "rfc3164")
    (hchecks : m.logSetting.AddtionCheck = "bayes" :: rest)
    (hc : m.c = none) :
    (LogParser.HandleMessage sv bl m msg).result = Except.error Fault.nilPointer ∧
    (LogParser.HandleMessage sv bl m msg).trace = [Event.lock] := by
  have h1 : ∀ v, (message.set "from" v).get? "tag" = some (Value.str tag) := by
    intro v; rw [GoMap.get?_set]; simp [htag]
  have h2 : ∀ v, (message.set "from" v).get? "content" = some (Value.str content) := by
    intro v; rw [GoMap.get?_set]; simp [hcontent]
  have h3 : ∀ v w, ((message.set "from" v).set "tag" w).get? "content"
      = some (Value.str content) := by
    intro v w; rw [GoMap.get?_set, h2]; simp
  by_cases hlen : tag.length = 0 <;>
  simp [LogParser.HandleMessage, hjson, hparse, bind, Exec.andThen, Exec.emit, pure, Exec.ret,
    enrich, htype, h1, h2, h3, asString, hlen, hchecks, runChecks, bayesCheck, logScores, hc,
    Exec.panic]

/-- C1, at a concrete input: the log parser of topic `syslog` before its first sync, check
"bayes", payload `payloadSu`. -/
theorem HandleMessage_bayes_not_ready_panics_witness :
    (LogParser.HandleMessage demoServices recBayes (demoParser "syslog" ["bayes"])
        ⟨payloadSu⟩).result = Except.error Fault.nilPointer ∧
    (LogParser.HandleMessage demoServices recBayes (demoParser "syslog" ["bayes"])
        ⟨payloadSu⟩).trace = [Event.lock] :=
  HandleMessage_bayes_not_ready_panics demoServices recBayes (demoParser "syslog" ["bayes"])
    ⟨payloadSu⟩ [("rawmsg", rawSu), ("from", "host1")] parsedSu "su" "ERR disk full" []
    rfl rfl (by decide) (by decide) (by decide) (by decide) rfl

/-- C2, the code on the rejected raw message: when the payload decodes and the profile
parser rejects the raw message, the handler returns nil after the events lock, log: the lock
it acquired is still held. -/
theorem HandleMessage_parse_error_keeps_lock {κ : Type} (sv : Services) (bl : Bayes κ)
    (m : LogParser κ) (msg : Message) (body : GoMap String) (err : String)
    (hjson : sv.jsonUnmarshal msg.Body = Except.ok body)
    (hparse : m.logSetting.Parser (body.getStr "rawmsg") = Except.error err) :
    (LogParser.HandleMessage sv bl m msg).result = Except.ok none ∧
    (LogParser.HandleMessage sv bl m msg).trace = [Event.lock, Event.log err] ∧
    heldAfter false (LogParser.HandleMessage sv bl m msg).trace = true := by
  simp [LogParser.HandleMessage, hjson, hparse, bind, Exec.andThen, Exec.emit, pure, Exec.ret,
    heldAfter]

/-- C2, at a concrete input: payload `payloadGarbage`, whose raw message is no syslog line. -/
theorem HandleMessage_parse_error_keeps_lock_witness :
    (LogParser.HandleMessage demoServices recBayes (demoParser "syslog" [])
        ⟨payloadGarbage⟩).result = Except.ok none ∧
    (LogParser.HandleMessage demoServices recBayes (demoParser "syslog" [])
        ⟨payloadGarbage⟩).trace = [Event.lock, Event.log "parse error"] ∧
    heldAfter false (LogParser.HandleMessage demoServices recBayes (demoParser "syslog" [])
        ⟨payloadGarbage⟩).trace = true :=
  HandleMessage_parse_error_keeps_lock demoServices recBayes (demoParser "syslog" [])
    ⟨payloadGarbage⟩ [("rawmsg", "garbage"), ("from", "host1")] "parse error"
    rfl rfl

/-- C3, the code where the regexp check finds rules: under an rfc3164 profile whose first
additional check is "regexp", when the rule map has an entry for the normalised tag, the
assignment of `regexp_check` hits the record body that was never allocated: the handler
panics and no record is handed to the sink. -/
theorem HandleMessage_regexp_rules_panics {κ : Type} (sv : Services) (bl : Bayes κ)
    (m : LogParser κ) (msg : Message) (body : GoMap String) (message : Body)
    (tag : String) (rest : List String) (rg : List Regexp)
    (hjson : sv.jsonUnmarshal msg.Body = Except.ok body)
    (hparse : m.logSetting.Parser (body.getStr "rawmsg") = Except.ok message)
    (htag : message.get? "tag" = some (Value.str tag))
    (htype : m.logSetting.LogType = "rfc3164")
    (hchecks : m.logSetting.AddtionCheck = "regexp" :: rest)
    (hrules : m.regexMap.get? (if tag.length = 0 then "misc" else removeDots tag) = some rg) :
    (LogParser.HandleMessage sv bl m msg).result = Except.error Fault.nilMapAssign ∧
    sinkWrites (LogParser.HandleMessage sv bl m msg).trace = [] := by
  have h1 : ∀ v, (message.set "from" v).get? "tag" = some (Value.str tag) := by
    intro v; rw [GoMap.get?_set]; simp [htag]
  by_cases hlen : tag.length = 0
  · simp only [hlen, if_true] at hrules
    simp [LogParser.HandleMessage, hjson, hparse, bind, Exec.andThen, Exec.emit, pure,
      Exec.ret, enrich, htype, h1, asString, hlen, hchecks, runChecks, regexpCheck, hrules,
      assign, Exec.panic, sinkWrites]
  · simp only [hlen, if_false] at hrules
    simp [LogParser.HandleMessage, hjson, hparse, bind, Exec.andThen, Exec.emit, pure,
      Exec.ret, enrich, htype, h1, asString, hlen, hchecks, runChecks, regexpCheck, hrules,
      assign, Exec.panic, sinkWrites]

/-- C3, at a concrete input: tag `su` has the rule `^ERR.*`, which matches the content
`ERR disk full` of `payloadSu`. -/
theorem HandleMessage_regexp_rules_panics_witness :
    (LogParser.HandleMessage demoServices recBayes (trainedParser ["regexp"])
        ⟨payloadSu⟩).result = Except.error Fault.nilMapAssign ∧
    sinkWrites (LogParser.HandleMessage demoServices recBayes (trainedParser ["regexp"])
        ⟨payloadSu⟩).trace = [] :=
  HandleMessage_regexp_rules_panics demoServices recBayes (trainedParser ["regexp"])
    ⟨payloadSu⟩ [("rawmsg", rawSu), ("from", "host1")] parsedSu "su" [] [startsWithERR]
    rfl rfl (by decide) (by decide) (by decide) rfl

/-- C8, the code where the bayes check runs on a ready classifier: under an rfc3164 profile
whose first additional check is "bayes", a message that decodes and parses does not reach
the sink: the assignment of `bayes_check` hits the record body that was never allocated,
the handler panics and returns no sink result. -/
theorem HandleMessage_bayes_ready_panics {κ : Type} (sv : Services) (bl : Bayes κ)
    (m : LogParser κ) (msg : Message) (body : GoMap String) (message : Body)
    (tag content : String) (rest : List String) (k : κ)
    (hjson : sv.jsonUnmarshal msg.Body = Except.ok body)
    (hparse : m.logSetting.Parser (body.getStr "rawmsg") = Except.ok message)
    (htag : message.get? "tag" = some (Value.str tag))
    (hcontent : message.get? "content" = some (Value.str content))
    (htype : m.logSetting.LogType = "rfc3164")
    (hchecks : m.logSetting.AddtionCheck = "bayes" :: rest)
    (hc : m.c = some k) :
    (LogParser.HandleMessage sv bl m msg).result = Except.error Fault.nilMapAssign ∧
    sinkWrites (LogParser.HandleMessage sv bl m msg).trace = [] := by
  have h1 : ∀ v, (message.set "from" v).get? "tag" = some (Value.str tag) := by
    intro v; rw [GoMap.get?_set]; simp [htag]
  have h2 : ∀ v, (message.set "from" v).get? "content" = some (Value.str content) := by
    intro v; rw [GoMap.get?_set]; simp [hcontent]
  have h3 : ∀ v w, ((message.set "from" v).set "tag" w).get? "content"
      = some (Value.str content) := by
    intro v w; rw [GoMap.get?_set, h2]; simp
  by_cases hlen : tag.length = 0 <;>
  simp [LogParser.HandleMessage, hjson, hparse, bind, Exec.andThen, Exec.emit, pure, Exec.ret,
    enrich, htype, h1, h2, h3, asString, hlen, hchecks, runChecks, bayesCheck, logScores, hc,
    assign, Exec.panic, sinkWrites]

/-- C8, at a concrete input: both classes taught, check "bayes", payload `payloadSu`. -/
theorem HandleMessage_bayes_ready_panics_witness :
    (LogParser.HandleMessage demoServices recBayes (trainedParser ["bayes"])
        ⟨payloadSu⟩).result = Except.error Fault.nilMapAssign ∧
    sinkWrites (LogParser.HandleMessage demoServices recBayes (trainedParser ["bayes"])
        ⟨payloadSu⟩).trace = [] :=
  HandleMessage_bayes_ready_panics demoServices recBayes (trainedParser ["bayes"])
    ⟨payloadSu⟩ [("rawmsg", rawSu), ("from", "host1")] parsedSu "su" "ERR disk full" []
    [("NormalLog", ["ok"]), ("ErrorLog", ["err"])]
    rfl rfl (by decide) (by decide) (by decide) (by decide) rfl

/-! ## Quiet executions -/

theorem heldAfter_quiet (p : Effect → Bool) (h : Bool) (t : List Event)
    (ht : ∀ e ∈ t, quiet p e = true) : heldAfter h t = h := by
  induction t with
  | nil => rfl
  | cons e rest ih =>
    have he := ht e (List.mem_cons_self _ _)
    have hr : ∀ e ∈ rest, quiet p e = true := fun x hx => ht x (List.mem_cons_of_mem _ hx)
    cases e with
    | lock => simp [quiet] at he
    | unlock => simp [quiet] at he
    | log s => simpa [heldAfter] using ih hr
    | io x => simpa [heldAfter] using ih hr

theorem ioUnderLock_quiet (p : Effect → Bool) (h : Bool) (t : List Event)
    (ht : ∀ e ∈ t, quiet p e = true) : ∀ x ∈ ioUnderLock h t, p x = true := by
  induction t with
  | nil => simp [ioUnderLock]
  | cons e rest ih =>
    have he := ht e (List.mem_cons_self _ _)
    have hr : ∀ e ∈ rest, quiet p e = true := fun x hx => ht x (List.mem_cons_of_mem _ hx)
    cases e with
    | lock => simp [quiet] at he
    | unlock => simp [quiet] at he
    | log s => simpa [ioUnderLock] using ih hr
    | io y =>
      intro x hx
      simp only [ioUnderLock] at hx
      split at hx
      · rcases List.mem_cons.mp hx with rfl | hx2
        · simpa [quiet] using he
        · exact ih hr x hx2
      · exact ih hr x hx

theorem ioUnderLock_append (h : Bool) (a b : List Event) :
    ioUnderLock h (a ++ b) = ioUnderLock h a ++ ioUnderLock (heldAfter h a) b := by
  induction a generalizing h with
  | nil => simp [ioUnderLock, heldAfter]
  | cons e rest ih =>
    cases e with
    | lock => simp [ioUnderLock, heldAfter, ih]
    | unlock => simp [ioUnderLock, heldAfter, ih]
    | log s => simp [ioUnderLock, heldAfter, ih]
    | io y => cases h <;> simp [ioUnderLock, heldAfter, ih]

theorem heldAfter_append (h : Bool) (a b : List Event) :
    heldAfter h (a ++ b) = heldAfter (heldAfter h a) b := by
  induction a generalizing h with
  | nil => simp [heldAfter]
  | cons e rest ih =>
    cases e <;> simp [heldAfter, ih]

theorem Exec.Quiet_pure {α : Type} (p : Effect → Bool) (a : α) : Exec.Quiet p (pure a) := by
  intro e he
  simp [pure, Exec.ret] at he

theorem Exec.Quiet_panic {α : Type} (p : Effect → Bool) (f : Fault) :
    Exec.Quiet p (Exec.panic f : Exec α) := by
  intro e he
  simp [Exec.panic] at he

theorem Exec.Quiet_emit (p : Effect → Bool) (ev : Event) (h : quiet p ev = true) :
    Exec.Quiet p (Exec.emit ev) := by
  intro e he
  simp only [Exec.emit, List.mem_singleton] at he
  subst he
  exact h

theorem Exec.Quiet_bind {α β : Type} (p : Effect → Bool) (x : Exec α) (f : α → Exec β)
    (hx : Exec.Quiet p x) (hf : ∀ a, Exec.Quiet p (f a)) : Exec.Quiet p (x >>= f) := by
  intro e he
  simp only [bind, Exec.andThen] at he
  split at he
  · exact hx e he
  · rcases List.mem_append.mp he with h1 | h2
    · exact hx e h1
    · exact hf _ e h2

theorem asString_quiet (p : Effect → Bool) (v : Option Value) : Exec.Quiet p (asString v) := by
  unfold asString
  split
  · exact Exec.Quiet_pure p _
  · exact Exec.Quiet_panic p _

theorem assign_quiet (p : Effect → Bool) (b : Option Body) (k : String) (v : Value) :
    Exec.Quiet p (assign b k v) := by
  unfold assign
  split
  · exact Exec.Quiet_panic p _
  · exact Exec.Quiet_pure p _

theorem matchRules_quiet (p : Effect → Bool) (message : Body) (rg : List Regexp)
    (b : Option Body) : Exec.Quiet p (matchRules message rg b) := by
  induction rg generalizing b with
  | nil => exact Exec.Quiet_pure p _
  | cons r rest ih =>
    unfold matchRules
    refine Exec.Quiet_bind p _ _ (asString_quiet p _) (fun content => ?_)
    dsimp only
    split
    · exact Exec.Quiet_bind p _ _ (assign_quiet p _ _ _) (fun b2 => ih b2)
    · exact Exec.Quiet_bind p _ _ (Exec.Quiet_pure p _) (fun b2 => ih b2)

theorem regexpCheck_quiet {κ : Type} (p : Effect → Bool) (m : LogParser κ) (message : Body)
    (tag : String) (b : Option Body) : Exec.Quiet p (regexpCheck m message tag b) := by
  unfold regexpCheck
  split
  · exact Exec.Quiet_pure p _
  · exact Exec.Quiet_bind p _ _ (assign_quiet p _ _ _) (fun b2 => matchRules_quiet p _ _ b2)

theorem bayesCheck_quiet {κ : Type} (sv : Services) (bl : Bayes κ) (m : LogParser κ)
    (msg : Message)
    (message : Body) (b : Option Body) :
    Exec.Quiet Effect.isTrainPublish (bayesCheck sv bl m msg message b) := by
  unfold bayesCheck
  refine Exec.Quiet_bind _ _ _ (asString_quiet _ _) (fun content => ?_)
  refine Exec.Quiet_bind _ _ _ ?_ (fun ls => ?_)
  · unfold logScores
    split
    · exact Exec.Quiet_panic _ _
    · exact Exec.Quiet_pure _ _
  · obtain ⟨likely, strict⟩ := ls
    refine Exec.Quiet_bind _ _ _ (assign_quiet _ _ _ _) (fun b2 => ?_)
    by_cases hs : strict = true
    · simp only [hs, if_true]
      refine Exec.Quiet_bind _ _ _ ?_ (fun cls => assign_quiet _ _ _ _)
      unfold classAt
      split
      · exact Exec.Quiet_panic _ _
      · exact Exec.Quiet_pure _ _
    · simp only [hs]
      refine Exec.Quiet_bind _ _ _ (Exec.Quiet_emit _ _ rfl) (fun _ => Exec.Quiet_pure _ _)

theorem runChecks_quiet {κ : Type} (sv : Services) (bl : Bayes κ) (m : LogParser κ)
    (msg : Message)
    (message : Body) (tag : String) (checks : List String) (b : Option Body) :
    Exec.Quiet Effect.isTrainPublish (runChecks sv bl m msg message tag checks b) := by
  induction checks generalizing b with
  | nil => exact Exec.Quiet_pure _ _
  | cons check rest ih =>
    unfold runChecks
    dsimp only
    split
    · exact Exec.Quiet_bind _ _ _ (regexpCheck_quiet _ _ _ _ _) (fun b2 => ih b2)
    · split
      · exact Exec.Quiet_bind _ _ _ (bayesCheck_quiet _ _ _ _ _ _) (fun b2 => ih b2)
      · exact Exec.Quiet_bind _ _ _ (Exec.Quiet_emit Effect.isTrainPublish (Event.log _) rfl)
          (fun _ => Exec.Quiet_bind _ _ _ (Exec.Quiet_pure _ _) (fun b2 => ih b2))

theorem enrich_quiet {κ : Type} (sv : Services) (bl : Bayes κ) (m : LogParser κ) (msg : Message)
    (message : Body) (b : Option Body) :
    Exec.Quiet Effect.isTrainPublish (enrich sv bl m msg message b) := by
  unfold enrich
  split
  · refine Exec.Quiet_bind _ _ _ (asString_quiet _ _) (fun tag => ?_)
    dsimp only
    split <;>
    exact Exec.Quiet_bind _ _ _ (runChecks_quiet _ _ _ _ _ _ _ _) (fun _ => Exec.Quiet_pure _ _)
  · exact Exec.Quiet_pure _ _

theorem enrich_message {κ : Type} (sv : Services) (bl : Bayes κ) (m : LogParser κ)
    (msg : Message)
    (message message2 : Body) (b b2 : Option Body)
    (h : (enrich sv bl m msg message b).result = Except.ok (message2, b2)) :
    message2 = message ∨ message2 = message.set "tag" (Value.str "misc") := by
  unfold enrich at h
  split at h
  · simp only [bind, Exec.andThen] at h
    split at h
    · simp at h
    · dsimp only at h
      split at h
      · simp at h
      · split at h
        · simp only [pure, Exec.ret, Except.ok.injEq, Prod.mk.injEq] at h
          exact Or.inr h.1.symm
        · simp only [pure, Exec.ret, Except.ok.injEq, Prod.mk.injEq] at h
          exact Or.inl h.1.symm
  · simp only [pure, Exec.ret, Except.ok.injEq, Prod.mk.injEq] at h
    exact Or.inl h.1.symm

/-! ## The shape of the handler of the log parser -/

theorem HandleMessage_shape {κ : Type} (sv : Services) (bl : Bayes κ) (m : LogParser κ)
    (msg : Message) (body : GoMap String) (message : Body)
    (hjson : sv.jsonUnmarshal msg.Body = Except.ok body)
    (hparse : m.logSetting.Parser (body.getStr "rawmsg") = Except.ok message) :
    (∀ f, (enrich sv bl m msg (message.set "from" (Value.str (body.getStr "from"))) none).result
        = Except.error f →
      (LogParser.HandleMessage sv bl m msg).result = Except.error f ∧
      (LogParser.HandleMessage sv bl m msg).trace = Event.lock ::
        (enrich sv bl m msg (message.set "from" (Value.str (body.getStr "from"))) none).trace) ∧
    (∀ message2 b2,
      (enrich sv bl m msg (message.set "from" (Value.str (body.getStr "from"))) none).result
        = Except.ok (message2, b2) →
      (LogParser.HandleMessage sv bl m msg).result = Except.ok
        (sv.Index (m.logSetting.ElasticSearchIndex ++ sv.indexPatten) m.logTopic
          m.logSetting.IndexTTL (some message2)) ∧
      (LogParser.HandleMessage sv bl m msg).trace = Event.lock ::
        ((enrich sv bl m msg (message.set "from" (Value.str (body.getStr "from"))) none).trace ++
          [Event.unlock, Event.lock, Event.unlock,
           Event.io (Effect.sinkWrite (m.logSetting.ElasticSearchIndex ++ sv.indexPatten)
             m.logTopic m.logSetting.IndexTTL (some message2))])) := by
  constructor
  · intro f hf
    simp [LogParser.HandleMessage, hjson, hparse, bind, Exec.andThen, Exec.emit, pure, Exec.ret,
      hf]
  · intro message2 b2 hok
    simp [LogParser.HandleMessage, hjson, hparse, bind, Exec.andThen, Exec.emit, pure, Exec.ret,
      hok, LogParser.elasticSearchBuildIndex]

theorem sinkWrites_append (a b : List Event) :
    sinkWrites (a ++ b) = sinkWrites a ++ sinkWrites b := by
  induction a with
  | nil => simp [sinkWrites]
  | cons e rest ih =>
    cases e with
    | lock => simp [sinkWrites, ih]
    | unlock => simp [sinkWrites, ih]
    | log s => simp [sinkWrites, ih]
    | io y => cases y <;> simp [sinkWrites, ih]

theorem sinkWrites_quiet (t : List Event)
    (ht : ∀ e ∈ t, quiet Effect.isTrainPublish e = true) : sinkWrites t = [] := by
  induction t with
  | nil => rfl
  | cons e rest ih =>
    have he := ht e (List.mem_cons_self _ _)
    have hr : ∀ e ∈ rest, quiet Effect.isTrainPublish e = true :=
      fun x hx => ht x (List.mem_cons_of_mem _ hx)
    cases e with
    | lock => simp [quiet] at he
    | unlock => simp [quiet] at he
    | log s => simpa [sinkWrites] using ih hr
    | io y => cases y <;> simp_all [sinkWrites, quiet, Effect.isTrainPublish]

/-- On every path of the handler that returns after the raw message parsed, exactly one record
was written to the sink, the returned error is the one the sink reported for it, and the
record is the parsed record with `from` (and the tag `misc` for an empty tag): none of the
annotations of the checks is in it. -/
theorem HandleMessage_returns_sink_result {κ : Type} (sv : Services) (bl : Bayes κ)
    (m : LogParser κ) (msg : Message) (body : GoMap String) (message : Body)
    (e : Option String)
    (hjson : sv.jsonUnmarshal msg.Body = Except.ok body)
    (hparse : m.logSetting.Parser (body.getStr "rawmsg") = Except.ok message)
    (hret : (LogParser.HandleMessage sv bl m msg).result = Except.ok e) :
    ∃ r, sinkWrites (LogParser.HandleMessage sv bl m msg).trace = [some r] ∧
      e = sv.Index (m.logSetting.ElasticSearchIndex ++ sv.indexPatten) m.logTopic
        m.logSetting.IndexTTL (some r) ∧
      (r = message.set "from" (Value.str (body.getStr "from")) ∨
       r = (message.set "from" (Value.str (body.getStr "from"))).set "tag"
          (Value.str "misc")) := by
  obtain ⟨hE, hO⟩ := HandleMessage_shape sv bl m msg body message hjson hparse
  cases hres : (enrich sv bl m msg (message.set "from" (Value.str (body.getStr "from")))
      none).result with
  | error f =>
    rw [(hE f hres).1] at hret
    simp at hret
  | ok p =>
    obtain ⟨message2, b2⟩ := p
    obtain ⟨h1, h2⟩ := hO message2 b2 hres
    refine ⟨message2, ?_, ?_, enrich_message sv bl m msg _ message2 none b2 hres⟩
    · rw [h2]
      have hq := sinkWrites_quiet _ (enrich_quiet sv bl m msg
        (message.set "from" (Value.str (body.getStr "from"))) none)
      simp [sinkWrites, sinkWrites_append, hq]
    · rw [h1] at hret
      simpa using hret.symm

/-- On every path of the handler that returns after the raw message parsed, the lock has been
released. -/
theorem HandleMessage_releases_lock_after_parse {κ : Type} (sv : Services) (bl : Bayes κ)
    (m : LogParser κ) (msg : Message) (body : GoMap String) (message : Body)
    (e : Option String)
    (hjson : sv.jsonUnmarshal msg.Body = Except.ok body)
    (hparse : m.logSetting.Parser (body.getStr "rawmsg") = Except.ok message)
    (hret : (LogParser.HandleMessage sv bl m msg).result = Except.ok e) :
    heldAfter false (LogParser.HandleMessage sv bl m msg).trace = false := by
  obtain ⟨hE, hO⟩ := HandleMessage_shape sv bl m msg body message hjson hparse
  cases hres : (enrich sv bl m msg (message.set "from" (Value.str (body.getStr "from")))
      none).result with
  | error f =>
    rw [(hE f hres).1] at hret
    simp at hret
  | ok p =>
    obtain ⟨message2, b2⟩ := p
    rw [(hO message2 b2 hres).2]
    simp [heldAfter, heldAfter_append]

/-! ## The lock discipline -/

theorem Exec.Locks_pure {α : Type} (p : Effect → Bool) (h : Bool) (a : α) :
    Exec.Locks p h h (pure a) := by
  simp [Exec.Locks, pure, Exec.ret, ioUnderLock, heldAfter]

theorem Exec.Locks_panic {α : Type} (p : Effect → Bool) (h h2 : Bool) (f : Fault) :
    Exec.Locks p h h2 (Exec.panic f : Exec α) := by
  simp [Exec.Locks, Exec.panic, ioUnderLock]

theorem Exec.Locks_lock (p : Effect → Bool) (h : Bool) :
    Exec.Locks p h true (Exec.emit Event.lock) := by
  simp [Exec.Locks, Exec.emit, ioUnderLock, heldAfter]

theorem Exec.Locks_unlock (p : Effect → Bool) (h : Bool) :
    Exec.Locks p h false (Exec.emit Event.unlock) := by
  simp [Exec.Locks, Exec.emit, ioUnderLock, heldAfter]

theorem Exec.Locks_log (p : Effect → Bool) (h : Bool) (s : String) :
    Exec.Locks p h h (Exec.emit (Event.log s)) := by
  simp [Exec.Locks, Exec.emit, ioUnderLock, heldAfter]

theorem Exec.Locks_io_free (p : Effect → Bool) (e : Effect) :
    Exec.Locks p false false (Exec.emit (Event.io e)) := by
  simp [Exec.Locks, Exec.emit, ioUnderLock, heldAfter]

theorem Exec.Locks_io_held (p : Effect → Bool) (e : Effect) (he : p e = true) :
    Exec.Locks p true true (Exec.emit (Event.io e)) := by
  simp [Exec.Locks, Exec.emit, ioUnderLock, heldAfter, he]

theorem Exec.Locks_bind {α β : Type} (p : Effect → Bool) (h h1 h2 : Bool) (x : Exec α)
    (f : α → Exec β) (hx : Exec.Locks p h h1 x) (hf : ∀ a, Exec.Locks p h1 h2 (f a)) :
    Exec.Locks p h h2 (x >>= f) := by
  obtain ⟨hx1, hx2⟩ := hx
  cases hres : x.result with
  | error err =>
    constructor
    · intro e he
      simp only [bind, Exec.andThen, hres] at he
      exact hx1 e he
    · intro a ha
      simp [bind, Exec.andThen, hres] at ha
  | ok a =>
    have hh := hx2 a hres
    obtain ⟨hf1, hf2⟩ := hf a
    constructor
    · intro e he
      simp only [bind, Exec.andThen, hres, ioUnderLock_append, hh] at he
      rcases List.mem_append.mp he with h3 | h3
      · exact hx1 e h3
      · exact hf1 e h3
    · intro b hb
      simp only [bind, Exec.andThen, hres] at hb
      simp only [bind, Exec.andThen, hres, heldAfter_append, hh]
      exact hf2 b hb

theorem Exec.Locks_of_Quiet {α : Type} (q p : Effect → Bool) (h : Bool) (x : Exec α)
    (hx : Exec.Quiet q x) (hqp : ∀ e, q e = true → p e = true) : Exec.Locks p h h x := by
  constructor
  · intro e he
    exact hqp e (ioUnderLock_quiet q h _ hx e he)
  · intro a _
    exact heldAfter_quiet q h _ hx

theorem scanLoop_quiet {σ : Type} (sv : Services) (sk : Sketch σ) (count : Nat)
    (toks : List (Tok × String))
    (s : σ) (tokens : List String) :
    Exec.Quiet Effect.isNone (scanLoop sv sk count toks s tokens) := by
  induction toks generalizing s tokens with
  | nil => exact Exec.Quiet_pure _ _
  | cons t rest ih =>
    obtain ⟨tok, text⟩ := t
    unfold scanLoop
    split
    · dsimp only
      split
      · exact Exec.Quiet_panic _ _
      · split
        · exact Exec.Quiet_bind _ _ _ (Exec.Quiet_emit Effect.isNone (Event.log _) rfl)
            (fun _ => ih _ _)
        · exact Exec.Quiet_bind _ _ _ (Exec.Quiet_emit Effect.isNone (Event.log _) rfl)
            (fun _ => ih _ _)
    · exact ih _ _

theorem parseLog_quiet {κ σ : Type} (sv : Services) (sk : Sketch σ)
    (scan : String → List (Tok × String))
    (m : Analyzer κ σ) (msg : String) :
    Exec.Quiet Effect.isNone (Analyzer.parseLog sv sk scan m msg) := by
  unfold Analyzer.parseLog
  exact Exec.Quiet_bind _ _ _ (scanLoop_quiet _ _ _ _ _ _) (fun _ => Exec.Quiet_pure _ _)

theorem learnLoop_quiet {κ : Type} (sv : Services) (bl : Bayes κ) (logTopic : String)
    (classes : List String) (k : κ) :
    Exec.Quiet Effect.isWordsFetch (learnLoop sv bl logTopic classes k) := by
  induction classes generalizing k with
  | nil => exact Exec.Quiet_pure _ _
  | cons c rest ih =>
    unfold learnLoop
    refine Exec.Quiet_bind _ _ _ (Exec.Quiet_emit Effect.isWordsFetch (Event.io _) rfl)
      (fun _ => ?_)
    split
    · exact Exec.Quiet_bind _ _ _ (Exec.Quiet_emit Effect.isWordsFetch (Event.log _) rfl)
        (fun _ => Exec.Quiet_pure _ _)
    · exact ih _

theorem getBayes_locks {κ : Type} (sv : Services) (bl : Bayes κ) (m : LogParser κ) :
    Exec.Locks Effect.isWordsFetch false false (LogParser.getBayes sv bl m) := by
  unfold LogParser.getBayes
  refine Exec.Locks_bind _ false false false _ _ (Exec.Locks_io_free _ _) (fun _ => ?_)
  split
  · exact Exec.Locks_bind _ false false false _ _ (Exec.Locks_log _ _ _)
      (fun _ => Exec.Locks_pure _ _ _)
  · split
    · exact Exec.Locks_bind _ false false false _ _ (Exec.Locks_log _ _ _)
        (fun _ => Exec.Locks_pure _ _ _)
    · refine Exec.Locks_bind _ false true false _ _ (Exec.Locks_lock _ _) (fun _ => ?_)
      refine Exec.Locks_bind _ true true false _ _
        (Exec.Locks_of_Quiet _ _ _ _ (learnLoop_quiet _ _ _ _ _) (fun _ h => h)) (fun r => ?_)
      exact Exec.Locks_bind _ true false false _ _ (Exec.Locks_unlock _ _)
        (fun _ => Exec.Locks_pure _ _ _)

theorem reportUnmatched_locks (p : Effect → Bool) (h : Bool) (rg : Option (List Regexp))
    (content payload : String) : Exec.Locks p h h (reportUnmatched rg content payload) := by
  unfold reportUnmatched
  split
  · split
    · exact Exec.Locks_pure _ _ _
    · exact Exec.Locks_log _ _ _
  · exact Exec.Locks_log _ _ _

theorem Analyzer_HandleMessage_locks {κ σ : Type} (sv : Services) (bl : Bayes κ)
    (sk : Sketch σ) (scan : String → List (Tok × String)) (m : Analyzer κ σ) (msg : Message) :
    Exec.Locks Effect.isAuditStore false false (Analyzer.HandleMessage sv bl sk scan m msg) := by
  have hnone : ∀ e, Effect.isNone e = true → Effect.isAuditStore e = true := by
    intro e h; simp [Effect.isNone] at h
  unfold Analyzer.HandleMessage
  split
  · exact Exec.Locks_pure _ _ _
  · refine Exec.Locks_bind _ false false false _ _
      (Exec.Locks_of_Quiet Effect.isNone _ _ _ (asString_quiet _ _) hnone) (fun content => ?_)
    refine Exec.Locks_bind _ false false false _ _
      (Exec.Locks_of_Quiet Effect.isNone _ _ _ (parseLog_quiet _ _ _ _ _) hnone) (fun r => ?_)
    obtain ⟨m2, words⟩ := r
    dsimp only
    split
    · refine Exec.Locks_bind _ false true false _ _ (Exec.Locks_lock _ _) (fun _ => ?_)
      refine Exec.Locks_bind _ true true false _ _
        (Exec.Locks_of_Quiet Effect.isNone _ _ _ ?_ hnone) (fun ls => ?_)
      · unfold logScores
        split
        · exact Exec.Quiet_panic _ _
        · exact Exec.Quiet_pure _ _
      obtain ⟨likely, strict⟩ := ls
      dsimp only
      refine Exec.Locks_bind _ true true false _ _
        (Exec.Locks_of_Quiet Effect.isNone _ _ _ (asString_quiet _ _) hnone) (fun tag => ?_)
      refine Exec.Locks_bind _ true true false _ _ ?_ (fun _ => ?_)
      · unfold auditCopy
        split
        · exact Exec.Locks_io_held _ _ rfl
        · exact Exec.Locks_pure _ _ _
      refine Exec.Locks_bind _ true false false _ _ (Exec.Locks_unlock _ _) (fun _ => ?_)
      refine Exec.Locks_bind _ false false false _ _ ?_ (fun _ => ?_)
      · unfold storeError
        split
        · exact Exec.Locks_bind _ false false false _ _ (Exec.Locks_log _ _ _)
            (fun _ => Exec.Locks_io_free _ _)
        · exact Exec.Locks_pure _ _ _
      refine Exec.Locks_bind _ false false false _ _ ?_ (fun _ => ?_)
      · unfold requestTraining
        split
        · exact Exec.Locks_bind _ false false false _ _ (Exec.Locks_io_free _ _)
            (fun _ => Exec.Locks_log _ _ _)
        · exact Exec.Locks_pure _ _ _
      exact Exec.Locks_bind _ false false false _ _ (reportUnmatched_locks _ _ _ _ _)
        (fun _ => Exec.Locks_pure _ _ _)
    · exact Exec.Locks_bind _ false false false _ _ (Exec.Locks_log _ _ _)
        (fun _ => Exec.Locks_pure _ _ _)



/-! ## The sync operations -/

theorem learnLoop_returns {κ : Type} (sv : Services) (bl : Bayes κ) (logTopic : String)
    (classes : List String) (k : κ) :
    ∃ r, (learnLoop sv bl logTopic classes k).result = Except.ok r := by
  induction classes generalizing k with
  | nil => exact ⟨_, rfl⟩
  | cons c rest ih =>
    cases hf : sv.redisStrings ("classifier:" ++ logTopic ++ ":" ++ c) with
    | error e =>
      exact ⟨(k, true), by simp [learnLoop, hf, bind, Exec.andThen, Exec.emit, pure, Exec.ret]⟩
    | ok words =>
      obtain ⟨r, hr⟩ := ih (bl.Learn k words c)
      exact ⟨r, by simp [learnLoop, hf, bind, Exec.andThen, Exec.emit, hr]⟩

theorem getBayes_classes_fetch_fails {κ : Type} (sv : Services) (bl : Bayes κ)
    (m : LogParser κ) (e : String)
    (hfetch : sv.redisStrings ("classifiers:" ++ m.logTopic) = Except.error e) :
    (LogParser.getBayes sv bl m).result = Except.ok m := by
  simp [LogParser.getBayes, hfetch, bind, Exec.andThen, Exec.emit, pure, Exec.ret]

theorem getBayes_few_classes {κ : Type} (sv : Services) (bl : Bayes κ)
    (m : LogParser κ) (classifiers : List String)
    (hfetch : sv.redisStrings ("classifiers:" ++ m.logTopic) = Except.ok classifiers)
    (hfew : classifiers.length < 2) :
    (LogParser.getBayes sv bl m).result = Except.ok m := by
  simp [LogParser.getBayes, hfetch, hfew, bind, Exec.andThen, Exec.emit, pure, Exec.ret]

/-- C5, the code on a failed fetch of training words: when the class-name set is fetched
with at least two names and the fetch of the words of the first class fails, the call returns
with the class-name list replaced by the fetched names and the classifier replaced by a new,
untaught one. -/
theorem getBayes_words_fetch_failure {κ : Type} (sv : Services) (bl : Bayes κ)
    (m : LogParser κ) (c : String) (rest : List String)
    (hfetch : sv.redisStrings ("classifiers:" ++ m.logTopic) = Except.ok (c :: rest))
    (hlen : 2 ≤ (c :: rest).length) (e : String)
    (hfail : sv.redisStrings ("classifier:" ++ m.logTopic ++ ":" ++ c) = Except.error e) :
    (LogParser.getBayes sv bl m).result = Except.ok
      { m with classifiers := c :: rest, c := some (bl.NewClassifier (c :: rest)) } := by
  have hnot : ¬ (c :: rest).length < 2 := by omega
  simp only [List.length_cons] at hnot
  simp [LogParser.getBayes, hfetch, hnot, learnLoop, hfail, bind, Exec.andThen, Exec.emit, pure,
    Exec.ret]

/-- C5, at a concrete input: topic `syslog` before its first sync (no class names, no
classifier); the class names are fetched, the words of `NormalLog` are not. -/
theorem getBayes_words_fetch_failure_witness :
    (demoParser "syslog" []).classifiers = [] ∧ (demoParser "syslog" []).c = none ∧
    wordsFetchFails demoServices "syslog" ["NormalLog", "ErrorLog"] = true ∧
    (LogParser.getBayes demoServices recBayes (demoParser "syslog" [])).result = Except.ok
      { demoParser "syslog" [] with
        classifiers := ["NormalLog", "ErrorLog"],
        c := some (recBayes.NewClassifier ["NormalLog", "ErrorLog"]) } :=
  ⟨rfl, rfl, by decide,
    getBayes_words_fetch_failure demoServices recBayes (demoParser "syslog" [])
      "NormalLog" ["ErrorLog"] rfl (by decide) "connection refused" rfl⟩

theorem addAuditTags_get? (t : List String) (tags : GoMap String) (k : String) :
    (addAuditTags t tags).get? k = if k ∈ t then some k else tags.get? k := by
  induction t generalizing tags with
  | nil => simp [addAuditTags]
  | cons v rest ih =>
    simp only [addAuditTags, ih, GoMap.get?_set, List.mem_cons]
    by_cases h1 : k ∈ rest
    · simp [h1]
    · by_cases h2 : v = k
      · subst h2
        simp [h1]
      · have h3 : ¬ k = v := fun h => h2 h.symm
        simp [h1, h2, h3]

/-- C6, amended: after a successful fetch the audit-tag set is the prior set with every
fetched name added (mapped to itself); a key that is not among the fetched names keeps the
binding it had before, so no tag is ever removed. -/
theorem getAuditTags_merges {κ σ : Type} (sv : Services) (m : Analyzer κ σ) (t : List String)
    (hfetch : sv.redisStrings "auditlogtags" = Except.ok t) :
    ∃ m2, (Analyzer.getAuditTags sv m).result = Except.ok m2 ∧
      ∀ k, m2.auditTags.get? k = if k ∈ t then some k else m.auditTags.get? k := by
  refine ⟨{ m with auditTags := addAuditTags t m.auditTags }, ?_, ?_⟩
  · simp [Analyzer.getAuditTags, hfetch, bind, Exec.andThen, Exec.emit, pure, Exec.ret]
  · intro k
    exact addAuditTags_get? t m.auditTags k

/-- C6, amended, at a concrete input: prior set `su`, fetched names `cron`. -/
theorem getAuditTags_merges_witness :
    ∃ m2, (Analyzer.getAuditTags demoServices (demoAnalyzer 0 [("su", "su")])).result
        = Except.ok m2 ∧
      ∀ k, m2.auditTags.get? k
        = if k ∈ ["cron"] then some k else (demoAnalyzer 0 [("su", "su")]).auditTags.get? k :=
  getAuditTags_merges demoServices (demoAnalyzer 0 [("su", "su")]) ["cron"] rfl

/-- C6, the claim as stated fails: with the prior audit tag `su` and the fetched list `cron`,
the keys after the call are `su` and `cron`, not exactly the fetched names, and `su` is
still an audit tag. -/
theorem getAuditTags_keeps_old_tag :
    ∃ m2, (Analyzer.getAuditTags demoServices (demoAnalyzer 0 [("su", "su")])).result
        = Except.ok m2 ∧
      m2.auditTags.keys = ["su", "cron"] ∧ m2.auditTags.keys ≠ ["cron"] ∧
      m2.auditTags.get? "su" = some "su" :=
  ⟨_, rfl, by decide, by decide, by decide⟩

/-! ## The regexp check -/

/-- C4, the code on a profile whose only additional check is "regexp": when the normalised tag
is not a key of the rule map the record is handed to the sink without a verdict (NoRule);
when it is a key, whatever rules are stored for it (matching, not matching, or none at all),
the branch has no verdict to give: its first assignment hits the record body that was never
allocated, and the handler panics before anything reaches the sink. -/
theorem HandleMessage_regexp_verdict {κ : Type} (sv : Services) (bl : Bayes κ)
    (m : LogParser κ) (msg : Message) (body : GoMap String) (message : Body) (tag : String)
    (hjson : sv.jsonUnmarshal msg.Body = Except.ok body)
    (hparse : m.logSetting.Parser (body.getStr "rawmsg") = Except.ok message)
    (htag : message.get? "tag" = some (Value.str tag))
    (htype : m.logSetting.LogType = "rfc3164")
    (hchecks : m.logSetting.AddtionCheck = ["regexp"]) :
    (m.regexMap.get? (if tag.length = 0 then "misc" else removeDots tag) = none →
      ∃ r, (LogParser.HandleMessage sv bl m msg).result = Except.ok
          (sv.Index (m.logSetting.ElasticSearchIndex ++ sv.indexPatten) m.logTopic
            m.logSetting.IndexTTL (some r)) ∧
        sinkWrites (LogParser.HandleMessage sv bl m msg).trace = [some r] ∧
        r.get? "regexp_check" = message.get? "regexp_check") ∧
    (∀ rg, m.regexMap.get? (if tag.length = 0 then "misc" else removeDots tag) = some rg →
      (regexpCheck m message (if tag.length = 0 then "misc" else removeDots tag) none).result
        = Except.error Fault.nilMapAssign ∧
      (LogParser.HandleMessage sv bl m msg).result = Except.error Fault.nilMapAssign ∧
      sinkWrites (LogParser.HandleMessage sv bl m msg).trace = []) := by
  have h1 : ∀ v, (message.set "from" v).get? "tag" = some (Value.str tag) := by
    intro v; rw [GoMap.get?_set]; simp [htag]
  constructor
  · intro hnone
    by_cases hlen : tag.length = 0
    · simp only [hlen, if_true] at hnone
      refine ⟨(message.set "from" (Value.str (body.getStr "from"))).set "tag"
        (Value.str "misc"), ?_, ?_, ?_⟩
      · simp [LogParser.HandleMessage, hjson, hparse, bind, Exec.andThen, Exec.emit, pure,
          Exec.ret, enrich, htype, h1, asString, hlen, hchecks, runChecks, regexpCheck, hnone,
          LogParser.elasticSearchBuildIndex]
      · simp [LogParser.HandleMessage, hjson, hparse, bind, Exec.andThen, Exec.emit, pure,
          Exec.ret, enrich, htype, h1, asString, hlen, hchecks, runChecks, regexpCheck, hnone,
          LogParser.elasticSearchBuildIndex, sinkWrites]
      · simp [GoMap.get?_set]
    · simp only [hlen, if_false] at hnone
      refine ⟨message.set "from" (Value.str (body.getStr "from")), ?_, ?_, ?_⟩
      · simp [LogParser.HandleMessage, hjson, hparse, bind, Exec.andThen, Exec.emit, pure,
          Exec.ret, enrich, htype, h1, asString, hlen, hchecks, runChecks, regexpCheck, hnone,
          LogParser.elasticSearchBuildIndex]
      · simp [LogParser.HandleMessage, hjson, hparse, bind, Exec.andThen, Exec.emit, pure,
          Exec.ret, enrich, htype, h1, asString, hlen, hchecks, runChecks, regexpCheck, hnone,
          LogParser.elasticSearchBuildIndex, sinkWrites]
      · simp [GoMap.get?_set]
  · intro rg hrules
    refine ⟨?_, ?_⟩
    · simp [regexpCheck, hrules, assign, bind, Exec.andThen, Exec.panic]
    · by_cases hlen : tag.length = 0
      · simp only [hlen, if_true] at hrules
        simp [LogParser.HandleMessage, hjson, hparse, bind, Exec.andThen, Exec.emit, pure,
          Exec.ret, enrich, htype, h1, asString, hlen, hchecks, runChecks, regexpCheck, hrules,
          assign, Exec.panic, sinkWrites]
      · simp only [hlen, if_false] at hrules
        simp [LogParser.HandleMessage, hjson, hparse, bind, Exec.andThen, Exec.emit, pure,
          Exec.ret, enrich, htype, h1, asString, hlen, hchecks, runChecks, regexpCheck, hrules,
          assign, Exec.panic, sinkWrites]

/-- C4, at a concrete input: `getRegexp` stores the tag `su`, whose only pattern `(` does not
compile, with an empty rule list; the next message of tag `su` makes the handler panic. -/
theorem HandleMessage_regexp_verdict_witness :
    (LogParser.getRegexp demoServices (demoParser "syslog" ["regexp"])).result
      = Except.ok syncedParser ∧
    (regexpCheck syncedParser parsedSu "su" none).result = Except.error Fault.nilMapAssign ∧
    (LogParser.HandleMessage demoServices recBayes syncedParser ⟨payloadSu⟩).result
      = Except.error Fault.nilMapAssign ∧
    sinkWrites (LogParser.HandleMessage demoServices recBayes syncedParser ⟨payloadSu⟩).trace
      = [] :=
  ⟨rfl, (HandleMessage_regexp_verdict demoServices recBayes syncedParser ⟨payloadSu⟩
    [("rawmsg", rawSu), ("from", "host1")] parsedSu "su" rfl rfl (by decide) (by decide)
    (by decide)).2 [] rfl⟩

/-! ## The frequency filter of the analyzer -/

theorem keptTokens_cons (count : Nat) (v : String) (f : Nat) (obs : List (String × Nat)) :
    specKeptTokens count ((v, f) :: obs)
      = if 100 ≤ uint32 count / f then v :: specKeptTokens count obs
        else specKeptTokens count obs := by
  by_cases h : 100 ≤ uint32 count / f
  · simp [specKeptTokens, List.filter_cons, h]
  · simp [specKeptTokens, List.filter_cons, h]

theorem scanLoop_spec {σ : Type} (sv : Services) (sk : Sketch σ)
    (hpos : ∀ s v, 1 ≤ (sk.ConservativeIncrement s v).2) (count : Nat)
    (toks : List (Tok × String)) (s : σ) (tokens : List String) :
    (scanLoop sv sk count toks s tokens).result = Except.ok
      (sketchAfter sv sk s toks, tokens ++ specKeptTokens count (specObserved sv sk s toks)) := by
  induction toks generalizing s tokens with
  | nil => simp [scanLoop, sketchAfter, specObserved, specKeptTokens, pure, Exec.ret]
  | cons t rest ih =>
    obtain ⟨tok, text⟩ := t
    have hf : ¬ (sk.ConservativeIncrement s (ToLower sv.unicodeToLower text)).2 = 0 := by
      have := hpos s (ToLower sv.unicodeToLower text); omega
    by_cases hk : tok = Tok.Ident ∨ tok = Tok.String ∨ tok = Tok.RawString
    · by_cases hp : uint32 count
          / (sk.ConservativeIncrement s (ToLower sv.unicodeToLower text)).2 < 100
      · have hp2 : ¬ 100 ≤ uint32 count
            / (sk.ConservativeIncrement s (ToLower sv.unicodeToLower text)).2 := by omega
        simp only [specObserved, sketchAfter, hk, if_true, keptTokens_cons, hp2, if_false]
        simp [scanLoop, hk, hf, hp, bind, Exec.andThen, Exec.emit, ih]
      · have hp2 : 100 ≤ uint32 count
            / (sk.ConservativeIncrement s (ToLower sv.unicodeToLower text)).2 := by omega
        simp only [specObserved, sketchAfter, hk, if_true, keptTokens_cons, hp2]
        simp [scanLoop, hk, hf, hp, bind, Exec.andThen, Exec.emit, ih]
    · simp only [specObserved, sketchAfter, hk, if_false]
      simp [scanLoop, hk, ih]

theorem parseLog_spec {κ σ : Type} (sv : Services) (sk : Sketch σ)
    (hpos : ∀ s v, 1 ≤ (sk.ConservativeIncrement s v).2)
    (scan : String → List (Tok × String)) (m : Analyzer κ σ) (msg : String) :
    (Analyzer.parseLog sv sk scan m msg).result = Except.ok
      ({ m with count := m.count + 1, sketch := sketchAfter sv sk m.sketch (scan msg) },
        specKeptTokens (m.count + 1) (specObserved sv sk m.sketch (scan msg))) := by
  have h := scanLoop_spec sv sk hpos (m.count + 1) (scan msg) m.sketch []
  simp [Analyzer.parseLog, bind, Exec.andThen, pure, Exec.ret, h]

theorem keptTokens_early (count : Nat) (hc : count ≤ 99) (obs : List (String × Nat)) :
    specKeptTokens count obs = [] := by
  have hall : ∀ p ∈ obs, ¬ 100 ≤ uint32 count / p.2 := by
    intro p _
    have h1 : uint32 count / p.2 ≤ uint32 count := Nat.div_le_self _ _
    have h2 : uint32 count ≤ count := Nat.mod_le _ _
    omega
  simp only [specKeptTokens, List.map_eq_nil_iff, List.filter_eq_nil_iff, decide_eq_true_eq]
  exact hall

theorem parseLogs_early {κ σ : Type} (sv : Services) (sk : Sketch σ)
    (hpos : ∀ s v, 1 ≤ (sk.ConservativeIncrement s v).2)
    (scan : String → List (Tok × String)) (msgs : List String) (m : Analyzer κ σ)
    (hc : m.count + msgs.length ≤ 99) :
    ∃ m2, (parseLogs sv sk scan m msgs).result
      = Except.ok (m2, List.replicate msgs.length []) := by
  induction msgs generalizing m with
  | nil => exact ⟨m, rfl⟩
  | cons msg rest ih =>
    simp only [List.length_cons] at hc
    have hs := parseLog_spec sv sk hpos scan m msg
    rw [keptTokens_early (m.count + 1) (by omega)] at hs
    obtain ⟨m2, hm⟩ := ih
      { m with count := m.count + 1, sketch := sketchAfter sv sk m.sketch (scan msg) }
      (by simp; omega)
    refine ⟨m2, ?_⟩
    simp [parseLogs, bind, Exec.andThen, pure, Exec.ret, hs, hm, List.replicate_succ]

/-- C10, the claim as stated fails: on message number `2 ^ 32` the quotient of the message
count by the frequency is `2 ^ 32`, at least 100, yet the token is dropped: the counter is
converted to 32 bits before the division. -/
theorem parseLog_drops_token_at_two_pow_32 :
    (demoAnalyzer 4294967295 []).count + 1 = 2 ^ 32 ∧
    100 ≤ ((demoAnalyzer 4294967295 []).count + 1)
      / (unitSketch.ConservativeIncrement () (ToLower demoServices.unicodeToLower "disk")).2 ∧
    ∃ m2, (Analyzer.parseLog demoServices unitSketch oneIdent (demoAnalyzer 4294967295 [])
        "disk").result = Except.ok (m2, []) ∧ m2.count = 2 ^ 32 :=
  ⟨by decide, by decide, _, rfl, by decide⟩

/-- C10, amended: when the estimator always answers at least 1, every call of `parseLog`
returns (no division by zero) with the counter incremented, and the tokens it returns are
exactly the lower-cased identifier, string and raw-string tokens whose quotient of the
incremented message count modulo `2 ^ 32` by the frequency the estimator answered for them
is at least 100; and starting from the counter 0, each of the first 99 calls returns the
empty token list. -/
theorem parseLog_keep_rule {κ σ : Type} (sv : Services) (sk : Sketch σ)
    (hpos : ∀ s v, 1 ≤ (sk.ConservativeIncrement s v).2)
    (scan : String → List (Tok × String)) :
    (∀ (m : Analyzer κ σ) (msg : String),
      (Analyzer.parseLog sv sk scan m msg).result = Except.ok
        ({ m with count := m.count + 1, sketch := sketchAfter sv sk m.sketch (scan msg) },
          specKeptTokens (m.count + 1) (specObserved sv sk m.sketch (scan msg)))) ∧
    (∀ (m : Analyzer κ σ) (msgs : List String), m.count = 0 → msgs.length ≤ 99 →
      ∃ m2, (parseLogs sv sk scan m msgs).result
        = Except.ok (m2, List.replicate msgs.length [])) := by
  refine ⟨parseLog_spec sv sk hpos scan, ?_⟩
  intro m msgs h0 hlen
  exact parseLogs_early sv sk hpos scan msgs m (by omega)

/-- C10, amended, at a concrete input: the estimator that always answers 1. Message number
100 keeps its token; two messages from the counter 0 keep none. -/
theorem parseLog_keep_rule_witness :
    (∀ s v, 1 ≤ (unitSketch.ConservativeIncrement s v).2) ∧
    (Analyzer.parseLog demoServices unitSketch oneIdent (demoAnalyzer 99 []) "Disk").result
      = Except.ok ({ demoAnalyzer 99 [] with count := 100 }, ["disk"]) ∧
    ∃ m2, (parseLogs demoServices unitSketch oneIdent (demoAnalyzer 0 [])
        ["disk full", "Disk"]).result = Except.ok (m2, [[], []]) :=
  ⟨fun _ _ => le_refl 1,
    (parseLog_keep_rule demoServices unitSketch (fun _ _ => le_refl 1) oneIdent).1
      (demoAnalyzer 99 []) "Disk",
    (parseLog_keep_rule demoServices unitSketch (fun _ _ => le_refl 1) oneIdent).2
      (demoAnalyzer 0 []) ["disk full", "Disk"] rfl (by decide)⟩

/-! ## The lock across blocking I/O -/

theorem compileRules_quiet (sv : Services) (r : List String) (rg : List Regexp) :
    Exec.Quiet Effect.isNone (compileRules sv r rg) := by
  induction r generalizing rg with
  | nil => exact Exec.Quiet_pure _ _
  | cons v rest ih =>
    unfold compileRules
    split
    · exact Exec.Quiet_bind _ _ _ (Exec.Quiet_emit Effect.isNone (Event.log _) rfl)
        (fun _ => ih _)
    · exact ih _

theorem storeRules_locks (sv : Services) (keyHead : String) (t : List String)
    (regexMap : GoMap (List Regexp)) :
    Exec.Locks Effect.isNone false false (storeRules sv keyHead t regexMap) := by
  induction t generalizing regexMap with
  | nil => exact Exec.Locks_pure _ _ _
  | cons value rest ih =>
    unfold storeRules
    refine Exec.Locks_bind _ false false false _ _ (Exec.Locks_io_free _ _) (fun _ => ?_)
    refine Exec.Locks_bind _ false false false _ _
      (Exec.Locks_of_Quiet Effect.isNone _ _ _ (compileRules_quiet _ _ _) (fun _ h => h))
      (fun rg => ?_)
    refine Exec.Locks_bind _ false true false _ _ (Exec.Locks_lock _ _) (fun _ => ?_)
    exact Exec.Locks_bind _ true false false _ _ (Exec.Locks_unlock _ _) (fun _ => ih _)

theorem getRegexp_locks {κ : Type} (sv : Services) (m : LogParser κ) :
    Exec.Locks Effect.isNone false false (LogParser.getRegexp sv m) := by
  unfold LogParser.getRegexp
  refine Exec.Locks_bind _ false false false _ _ (Exec.Locks_io_free _ _) (fun _ => ?_)
  split
  · exact Exec.Locks_pure _ _ _
  · exact Exec.Locks_bind _ false false false _ _ (storeRules_locks _ _ _ _)
      (fun _ => Exec.Locks_pure _ _ _)

theorem Analyzer_getRegexp_locks {κ σ : Type} (sv : Services) (m : Analyzer κ σ) :
    Exec.Locks Effect.isNone false false (Analyzer.getRegexp sv m) := by
  unfold Analyzer.getRegexp
  refine Exec.Locks_bind _ false false false _ _ (Exec.Locks_io_free _ _) (fun _ => ?_)
  split
  · exact Exec.Locks_pure _ _ _
  · exact Exec.Locks_bind _ false false false _ _ (storeRules_locks _ _ _ _)
      (fun _ => Exec.Locks_pure _ _ _)

theorem Analyzer_getBayes_locks {κ σ : Type} (sv : Services) (bl : Bayes κ)
    (m : Analyzer κ σ) :
    Exec.Locks Effect.isNone false false (Analyzer.getBayes sv bl m) := by
  unfold Analyzer.getBayes
  refine Exec.Locks_bind _ false false false _ _ (Exec.Locks_io_free _ _) (fun _ => ?_)
  refine Exec.Locks_bind _ false false false _ _ (Exec.Locks_io_free _ _) (fun _ => ?_)
  refine Exec.Locks_bind _ false true false _ _ (Exec.Locks_lock _ _) (fun _ => ?_)
  exact Exec.Locks_bind _ true false false _ _ (Exec.Locks_unlock _ _)
    (fun _ => Exec.Locks_pure _ _ _)

theorem getLogFormat_locks {κ : Type} (sv : Services) (m : LogParser κ) :
    Exec.Locks Effect.isNone false false (LogParser.getLogFormat sv m) := by
  unfold LogParser.getLogFormat
  refine Exec.Locks_bind _ false false false _ _ (Exec.Locks_io_free _ _) (fun _ => ?_)
  split
  · exact Exec.Locks_pure _ _ _
  · refine Exec.Locks_bind _ false true false _ _ (Exec.Locks_lock _ _) (fun _ => ?_)
    split
    · exact Exec.Locks_bind _ true false false _ _ (Exec.Locks_unlock _ _)
        (fun _ => Exec.Locks_panic _ _ _ _)
    · split
      · exact Exec.Locks_bind _ true false false _ _ (Exec.Locks_unlock _ _)
          (fun _ => Exec.Locks_pure _ _ _)
      · exact Exec.Locks_bind _ true false false _ _ (Exec.Locks_unlock _ _)
          (fun _ => Exec.Locks_pure _ _ _)

theorem getAuditTags_locks {κ σ : Type} (sv : Services) (m : Analyzer κ σ) :
    Exec.Locks Effect.isNone false false (Analyzer.getAuditTags sv m) := by
  unfold Analyzer.getAuditTags
  refine Exec.Locks_bind _ false false false _ _ (Exec.Locks_io_free _ _) (fun _ => ?_)
  split
  · exact Exec.Locks_pure _ _ _
  · refine Exec.Locks_bind _ false true false _ _ (Exec.Locks_lock _ _) (fun _ => ?_)
    exact Exec.Locks_bind _ true false false _ _ (Exec.Locks_unlock _ _)
      (fun _ => Exec.Locks_pure _ _ _)

theorem eq_nil_of_isNone (l : List Effect) (h : ∀ e ∈ l, Effect.isNone e = true) : l = [] := by
  cases l with
  | nil => rfl
  | cons a rest =>
    have := h a (List.mem_cons_self _ _)
    simp [Effect.isNone] at this

theorem Exec.Quiet_bind_ok {α β : Type} (p : Effect → Bool) (x : Exec α) (f : α → Exec β)
    (hx : Exec.Quiet p x) (hf : ∀ a, x.result = Except.ok a → Exec.Quiet p (f a)) :
    Exec.Quiet p (x >>= f) := by
  intro e he
  simp only [bind, Exec.andThen] at he
  split at he
  · exact hx e he
  · rename_i a ha
    rcases List.mem_append.mp he with h1 | h2
    · exact hx e h1
    · exact hf a ha e h2

theorem bayesCheck_nil_body {κ : Type} (sv : Services) (bl : Bayes κ) (m : LogParser κ)
    (msg : Message) (message : Body) :
    (bayesCheck sv bl m msg message none).trace = [] ∧
    ∀ b, (bayesCheck sv bl m msg message none).result ≠ Except.ok b := by
  unfold bayesCheck
  cases hc : message.get? "content" with
  | none => simp [asString, bind, Exec.andThen, Exec.panic]
  | some v =>
    cases v with
    | str content =>
      cases hk : m.c with
      | none => simp [asString, bind, Exec.andThen, Exec.panic, pure, Exec.ret, logScores, hk]
      | some k =>
        simp [asString, bind, Exec.andThen, Exec.panic, pure, Exec.ret, logScores, hk, assign]
    | time u => simp [asString, bind, Exec.andThen, Exec.panic]
    | num n => simp [asString, bind, Exec.andThen, Exec.panic]

theorem runChecks_nil_body_quiet {κ : Type} (sv : Services) (bl : Bayes κ) (m : LogParser κ)
    (msg : Message) (message : Body) (tag : String) (checks : List String) :
    Exec.Quiet Effect.isNone (runChecks sv bl m msg message tag checks none) := by
  induction checks with
  | nil => exact Exec.Quiet_pure _ _
  | cons check rest ih =>
    unfold runChecks
    dsimp only
    split
    · refine Exec.Quiet_bind_ok _ _ _ (regexpCheck_quiet _ _ _ _ _) (fun b2 hb => ?_)
      have hb2 : b2 = none := by
        unfold regexpCheck at hb
        split at hb
        · simpa [pure, Exec.ret] using hb.symm
        · simp [assign, bind, Exec.andThen, Exec.panic] at hb
      rw [hb2]
      exact ih
    · split
      · refine Exec.Quiet_bind_ok _ _ _ ?_ (fun b2 hb => ?_)
        · intro e he
          rw [(bayesCheck_nil_body sv bl m msg message).1] at he
          simp at he
        · exact absurd hb ((bayesCheck_nil_body sv bl m msg message).2 b2)
      · refine Exec.Quiet_bind _ _ _ (Exec.Quiet_emit Effect.isNone (Event.log _) rfl)
          (fun _ => Exec.Quiet_bind_ok _ _ _ (Exec.Quiet_pure _ _) (fun b2 hb => ?_))
        have hb2 : b2 = none := by
          simpa [pure, Exec.ret] using hb.symm
        rw [hb2]
        exact ih

theorem enrich_nil_body_quiet {κ : Type} (sv : Services) (bl : Bayes κ) (m : LogParser κ)
    (msg : Message) (message : Body) :
    Exec.Quiet Effect.isNone (enrich sv bl m msg message none) := by
  unfold enrich
  split
  · refine Exec.Quiet_bind _ _ _ (asString_quiet _ _) (fun tag => ?_)
    dsimp only
    split <;>
    exact Exec.Quiet_bind _ _ _ (runChecks_nil_body_quiet _ _ _ _ _ _ _)
      (fun _ => Exec.Quiet_pure _ _)
  · exact Exec.Quiet_pure _ _

theorem HandleMessage_no_io_under_lock {κ : Type} (sv : Services) (bl : Bayes κ)
    (m : LogParser κ) (msg : Message) :
    ioUnderLock false (LogParser.HandleMessage sv bl m msg).trace = [] := by
  apply eq_nil_of_isNone
  cases hjson : sv.jsonUnmarshal msg.Body with
  | error err =>
    simp [LogParser.HandleMessage, hjson, pure, Exec.ret, ioUnderLock]
  | ok body =>
    cases hparse : m.logSetting.Parser (body.getStr "rawmsg") with
    | error err =>
      simp [LogParser.HandleMessage, hjson, hparse, bind, Exec.andThen, Exec.emit, pure,
        Exec.ret, ioUnderLock]
    | ok message =>
      obtain ⟨hE, hO⟩ := HandleMessage_shape sv bl m msg body message hjson hparse
      have hq := enrich_nil_body_quiet sv bl m msg
        (message.set "from" (Value.str (body.getStr "from")))
      cases hres : (enrich sv bl m msg (message.set "from" (Value.str (body.getStr "from")))
          none).result with
      | error f =>
        rw [(hE f hres).2]
        simpa [ioUnderLock] using ioUnderLock_quiet _ true _ hq
      | ok p =>
        obtain ⟨message2, b2⟩ := p
        rw [(hO message2 b2 hres).2]
        simp only [ioUnderLock, ioUnderLock_append, heldAfter_quiet _ true _ hq]
        simpa [ioUnderLock] using ioUnderLock_quiet _ true _ hq

/-- Where the lock is not held across blocking I/O: `LogParser.HandleMessage` (the publish of
its bayes case is behind the panic of the preceding assignment), `getRegexp`, `getLogFormat`,
`getAuditTags` and `Analyzer.getBayes` perform none while the lock is held, each started with
the lock free; in `Analyzer.HandleMessage` only audit-store writes and in `LogParser.getBayes`
only fetches of training words are performed while it is held. -/
theorem io_under_lock_elsewhere {κ σ : Type} (sv : Services) (bl : Bayes κ) (sk : Sketch σ)
    (scan : String → List (Tok × String)) (a : Analyzer κ σ) (m : LogParser κ)
    (msg : Message) :
    (ioUnderLock false (Analyzer.HandleMessage sv bl sk scan a msg).trace).all
      Effect.isAuditStore = true ∧
    ioUnderLock false (LogParser.HandleMessage sv bl m msg).trace = [] ∧
    (ioUnderLock false (LogParser.getBayes sv bl m).trace).all Effect.isWordsFetch = true ∧
    ioUnderLock false (LogParser.getRegexp sv m).trace = [] ∧
    ioUnderLock false (LogParser.getLogFormat sv m).trace = [] ∧
    ioUnderLock false (Analyzer.getBayes sv bl a).trace = [] ∧
    ioUnderLock false (Analyzer.getRegexp sv a).trace = [] ∧
    ioUnderLock false (Analyzer.getAuditTags sv a).trace = [] := by
  refine ⟨?_, ?_, ?_, ?_, ?_, ?_, ?_, ?_⟩
  · exact List.all_eq_true.mpr (Analyzer_HandleMessage_locks sv bl sk scan a msg).1
  · exact HandleMessage_no_io_under_lock sv bl m msg
  · exact List.all_eq_true.mpr (getBayes_locks sv bl m).1
  · exact eq_nil_of_isNone _ (getRegexp_locks sv m).1
  · exact eq_nil_of_isNone _ (getLogFormat_locks sv m).1
  · exact eq_nil_of_isNone _ (Analyzer_getBayes_locks sv bl a).1
  · exact eq_nil_of_isNone _ (Analyzer_getRegexp_locks sv a).1
  · exact eq_nil_of_isNone _ (getAuditTags_locks sv a).1

theorem ioUnderLock_free_quiet (p : Effect → Bool) (t : List Event)
    (ht : ∀ e ∈ t, quiet p e = true) : ioUnderLock false t = [] := by
  induction t with
  | nil => rfl
  | cons e rest ih =>
    have he := ht e (List.mem_cons_self _ _)
    have hr : ∀ e ∈ rest, quiet p e = true := fun x hx => ht x (List.mem_cons_of_mem _ hx)
    cases e with
    | lock => simp [quiet] at he
    | unlock => simp [quiet] at he
    | log s => simpa [ioUnderLock] using ih hr
    | io y => simpa [ioUnderLock] using ih hr

theorem storeError_returns (tag : String) (t : Int) (payload : String) (likely : Nat)
    (strict : Bool) :
    (storeError tag t payload likely strict).result = Except.ok () ∧
    Exec.Quiet (fun _ => true) (storeError tag t payload likely strict) := by
  unfold storeError
  split
  · exact ⟨by simp [bind, Exec.andThen, Exec.emit],
      Exec.Quiet_bind _ _ _ (Exec.Quiet_emit _ (Event.log _) rfl)
        (fun _ => Exec.Quiet_emit _ (Event.io _) rfl)⟩
  · exact ⟨rfl, Exec.Quiet_pure _ _⟩

theorem requestTraining_returns (trainTopic payload : String) (strict : Bool) :
    (requestTraining trainTopic payload strict).result = Except.ok () ∧
    Exec.Quiet (fun _ => true) (requestTraining trainTopic payload strict) := by
  unfold requestTraining
  split
  · exact ⟨by simp [bind, Exec.andThen, Exec.emit],
      Exec.Quiet_bind _ _ _ (Exec.Quiet_emit _ (Event.io _) rfl)
        (fun _ => Exec.Quiet_emit _ (Event.log _) rfl)⟩
  · exact ⟨rfl, Exec.Quiet_pure _ _⟩

theorem reportUnmatched_returns (rg : Option (List Regexp)) (content payload : String) :
    (reportUnmatched rg content payload).result = Except.ok () ∧
    Exec.Quiet (fun _ => true) (reportUnmatched rg content payload) := by
  unfold reportUnmatched
  split
  · split
    · exact ⟨rfl, Exec.Quiet_pure _ _⟩
    · exact ⟨rfl, Exec.Quiet_emit _ (Event.log _) rfl⟩
  · exact ⟨rfl, Exec.Quiet_emit _ (Event.log _) rfl⟩

/-- C9, the code where the lock is held across blocking I/O: for a message of an audit tag
(that parses, with a classifier loaded and an estimator that answers at least 1),
`Analyzer.HandleMessage` performs exactly one blocking I/O action between its lock and unlock,
the write to the audit store; and whenever at least two class names are fetched,
`LogParser.getBayes` fetches the training words of the first class between its lock and
unlock. -/
theorem lock_held_across_store_and_fetch {κ σ : Type} (sv : Services) (bl : Bayes κ)
    (sk : Sketch σ) (scan : String → List (Tok × String)) (a : Analyzer κ σ)
    (m : LogParser κ) (msg : Message) (message : Body) (content tag v c : String) (t : Int)
    (k : κ) (rest : List String)
    (hpos : ∀ s w, 1 ≤ (sk.ConservativeIncrement s w).2)
    (hparse : sv.rfc3164 msg.Body = Except.ok message)
    (hcontent : message.get? "content" = some (Value.str content))
    (htime : message.get? "timestamp" = some (Value.time t))
    (htag : message.get? "tag" = some (Value.str tag))
    (hc : a.c = some k)
    (haudit : a.auditTags.get? tag = some v)
    (hfetch : sv.redisStrings ("classifiers:" ++ m.logTopic) = Except.ok (c :: rest))
    (hlen : 2 ≤ (c :: rest).length) :
    ioUnderLock false (Analyzer.HandleMessage sv bl sk scan a msg).trace
      = [Effect.auditStore tag t msg.Body] ∧
    Effect.wordsFetch ("classifier:" ++ m.logTopic ++ ":" ++ c)
      ∈ ioUnderLock false (LogParser.getBayes sv bl m).trace := by
  constructor
  · have hp := parseLog_spec sv sk hpos scan a content
    have hq := parseLog_quiet sv sk scan a content
    have hP := ioUnderLock_free_quiet _ _ hq
    have hPh := heldAfter_quiet _ false _ hq
    have hS := fun likely strict => storeError_returns tag t msg.Body likely strict
    have hR := fun strict => requestTraining_returns a.trainTopic msg.Body strict
    have hU := reportUnmatched_returns (a.regexMap.get? tag) content msg.Body
    simp only [Analyzer.HandleMessage, hparse, hcontent, asString, bind, Exec.andThen, pure,
      Exec.ret, hp, htime, Exec.emit, logScores, hc, htag, auditCopy, haudit, Option.isSome,
      if_true, (hS _ _).1, (hR _).1, hU.1, List.nil_append, List.append_nil,
      List.singleton_append, List.cons_append, ioUnderLock_append, hP, hPh, ioUnderLock,
      heldAfter, ioUnderLock_free_quiet _ _ (hS _ _).2, heldAfter_quiet _ false _ (hS _ _).2,
      ioUnderLock_free_quiet _ _ (hR _).2, heldAfter_quiet _ false _ (hR _).2,
      ioUnderLock_free_quiet _ _ hU.2]
  · have hnot : ¬ rest.length + 1 < 2 := by
      simp only [List.length_cons] at hlen; omega
    cases hw : sv.redisStrings ("classifier:" ++ m.logTopic ++ ":" ++ c) with
    | error e =>
      simp [LogParser.getBayes, hfetch, hnot, learnLoop, hw, bind, Exec.andThen, Exec.emit,
        pure, Exec.ret, ioUnderLock]
    | ok words =>
      obtain ⟨r, hr⟩ := learnLoop_returns sv bl m.logTopic rest
        (bl.Learn (bl.NewClassifier (c :: rest)) words c)
      simp [LogParser.getBayes, hfetch, hnot, learnLoop, hw, bind, Exec.andThen, Exec.emit,
        pure, Exec.ret, ioUnderLock, hr]


/-- C9, at a concrete input: the audit tag `su` and the raw line `rawSu` for the analyzer; the
topic `syslog` with its two classes for the log parser. -/
theorem lock_held_across_store_and_fetch_witness :
    ioUnderLock false (Analyzer.HandleMessage demoServices recBayes unitSketch oneIdent
        (demoAnalyzer 0 [("su", "su")]) ⟨rawSu⟩).trace
      = [Effect.auditStore "su" 1697062455 rawSu] ∧
    Effect.wordsFetch "classifier:syslog:NormalLog"
      ∈ ioUnderLock false
        (LogParser.getBayes demoServices recBayes (demoParser "syslog" [])).trace :=
  lock_held_across_store_and_fetch demoServices recBayes unitSketch oneIdent
    (demoAnalyzer 0 [("su", "su")]) (demoParser "syslog" []) ⟨rawSu⟩ parsedSu
    "ERR disk full" "su" "su" "NormalLog" 1697062455
    (recBayes.NewClassifier ["NormalLog", "ErrorLog"]) ["ErrorLog"]
    (fun _ _ => le_refl 1) rfl (by decide) (by decide) (by decide) rfl (by decide) rfl
    (by decide)

end Lazy
